import Mathlib

/-!
Shallow embedding of the Stable Sparse RRT (SST) search engine from
`src/rrt/sst.rs`, together with proofs about its witness/representative
bookkeeping, pruning, importance sampling and iteration driver.

Modelling conventions:
* `f32` quantities (costs, metrics, fitness, probabilities) are modelled as `ℚ`;
  the acceptance threshold `gamma` (initially `f32::INFINITY`) is `WithTop ℚ`.
* Caller-supplied behaviours (`dynamics`, `ss_metric`, `project_state_to_config`,
  `stop_cond`, `ss_add`, `ss_mul`) are fields of `Params`, exactly as the Rust
  code receives them in its `Param` record.  The obstacle oracle
  (`SST::collision_check`, a BVH query over the 3D segment between the two
  configuration-space points) is abstracted as the caller-level function
  `collides : C → C → Bool` of the two configuration points, since obstacle
  geometry is an external collaborator.
* `HashMap`s are modelled as association lists with lookup/insert/erase
  (`lookupA`/`insertA`/`eraseA`), `HashSet`s as `Finset ℕ`.  `Vec` push/pop on
  the freelist (LIFO at the back) is modelled as cons/head (LIFO at the front).
* All randomness and nearest-neighbour query results consumed by one iteration
  of `SST::iterate` are supplied by a `StepOracle`; the constraints the real NN
  index guarantees (returned ids are live, nearest-within-threshold results are
  within the threshold) are collected in `OracleOK`.
* Compile-time features are runtime flags: `disturbance_enabled` is
  `not(feature = "disable_witness_disturbance")`, `pruning_enabled` is
  `not(feature = "disable_pruning")`.  The motion-primitive library and the
  batch/state-propagate sampling policies only influence which `(dt, control)`
  pair reaches the main admission step, so they are subsumed by the oracle.
-/

unseal Rat.add Rat.sub Rat.mul Rat.inv

/-- Association-list lookup, modelling `HashMap::get`. -/
def lookupA {β : Type} (m : List (Nat × β)) (k : Nat) : Option β :=
  (m.find? (fun q => decide (q.1 = k))).map (fun q => q.2)

/-- Association-list erase, modelling `HashMap::remove`. -/
def eraseA {β : Type} (m : List (Nat × β)) (k : Nat) : List (Nat × β) :=
  m.filter (fun q => decide (q.1 ≠ k))

/-- Association-list insert/overwrite, modelling `HashMap::insert` /
`*map.get_mut(k) = v`. -/
def insertA {β : Type} (m : List (Nat × β)) (k : Nat) (v : β) : List (Nat × β) :=
  (k, v) :: eraseA m k

/-- Lookup for the pair-keyed edge map `edges : HashMap<(usize,usize), Edge>`. -/
def lookupE {β : Type} (m : List ((Nat × Nat) × β)) (k : Nat × Nat) : Option β :=
  (m.find? (fun q => decide (q.1 = k))).map (fun q => q.2)

/-- Erase for the pair-keyed edge map. -/
def eraseE {β : Type} (m : List ((Nat × Nat) × β)) (k : Nat × Nat) : List ((Nat × Nat) × β) :=
  m.filter (fun q => decide (q.1 ≠ k))

/-- Insert for the pair-keyed edge map. -/
def insertE {β : Type} (m : List ((Nat × Nat) × β)) (k : Nat × Nat) (v : β) :
    List ((Nat × Nat) × β) :=
  (k, v) :: eraseE m k

/-- One Gaussian mixture component (`struct Gaussian` in `sst.rs`). -/
structure Gaussian (S : Type) where
  mu : S
  vicinity_dist : ℚ
  count_samples : Nat
deriving DecidableEq

/-- `Gaussian::init` in `sst.rs`. -/
def Gaussian.start {S : Type} (bootstrap_mu : S) (ss_dist : ℚ) : Gaussian S :=
  { mu := bootstrap_mu, vicinity_dist := ss_dist, count_samples := 0 }

/-- One propagation-tree node (`struct Node` in `sst.rs`).  `children` is the
`HashSet<usize>` of child ids, `cost` the cumulative propagation time. -/
structure Node (S : Type) where
  id : Nat
  state : S
  children : Finset Nat
  cost : ℚ
deriving DecidableEq

instance {S : Type} [Inhabited S] : Inhabited (Node S) :=
  ⟨{ id := 0, state := default, children := ∅, cost := 0 }⟩

/-- Edge payload (`struct Edge` in `sst.rs`): control plus the kind tag
(0 = Monte-Carlo, 1 = motion primitive). -/
structure EdgeD (U : Type) where
  control : U
  kind : Nat
deriving DecidableEq

/-- Caller-supplied parameters of the engine: the `Param` record plus the
`ParamTree` radii and the compile-time feature flags. -/
structure Params (S U C : Type) where
  states_init : S
  states_goal : S
  iterations_bound : Nat
  ss_metric : S → S → ℚ
  project_state_to_config : S → C
  dynamics : S → U → ℚ → S
  stop_cond : S → C → S → Bool
  collides : C → C → Bool
  ss_add : S → S → S
  ss_mul : S → ℚ → S
  delta_v : ℚ
  delta_s : ℚ
  disturbance_enabled : Bool
  pruning_enabled : Bool

/-- The mutable state of `struct SST` (statistics timers, which are wall-clock
side channels, and the motion-primitive library are omitted; `nn_nodes` models
the id content of `nn_query`). -/
structure Engine (S U : Type) where
  nodes : List (Node S)
  nodes_freelist : List Nat
  nodes_active : Finset Nat
  nodes_inactive : Finset Nat
  link_parent : List (Nat × Nat)
  edges : List ((Nat × Nat) × EdgeD U)
  witnesses : List S
  witness_representative : List (Nat × Nat)
  delta_v : ℚ
  delta_s : ℚ
  nn_nodes : List Nat
  stat_pruned_nodes : Nat
  stat_iter_no_change : Nat
  stat_iter_collision : Nat
  iter_exec : Nat
  idx_reached : Option Nat
  stat_witnesses_new : Nat
  stat_witnesses_discovery_rate : ℚ
  witness_disturbance : Bool
  sampling_mixture : List (Gaussian S)
  saved_feasible_traj : List S
  sampling_mixture_prob : List (Nat × ℚ)
  importance_samples : List (ℚ × List S)
  importance_sample_gamma : WithTop ℚ
  optimization_iterations : Nat

variable {S U C : Type}

/-- Total access to `self.nodes[i]` (in-bounds on all reachable states). -/
def getNode [Inhabited S] (e : Engine S U) (i : Nat) : Node S :=
  e.nodes.getD i default

/-- Update only the `children` field of `nodes[i]`. -/
def modifyChildren (nodes : List (Node S)) (i : Nat) (f : Finset Nat → Finset Nat) :
    List (Node S) :=
  List.modify (fun n => { n with children := f n.children }) i nodes

/-- `SST::insert_node`: allocate from the freelist if possible (LIFO) else
append; mark active; register the child in the parent's children set, the
parent link and the edge.  Returns the engine and the new node's id. -/
def insertNode [Inhabited S] (e : Engine S U) (idx_node_nearest : Nat) (state_propagate : S)
    (control_propagate : U) (propagation_cost : ℚ) (is_using_motion_prim : Bool) :
    Engine S U × Nat :=
  let alloc : Engine S U × Nat :=
    match e.nodes_freelist with
    | slot :: rest =>
        ({ e with
            nodes := e.nodes.set slot
              ({ id := slot, state := state_propagate, children := ∅,
                 cost := propagation_cost }),
            nodes_freelist := rest }, slot)
    | [] =>
        ({ e with
            nodes := e.nodes ++
              [{ id := e.nodes.length, state := state_propagate, children := ∅,
                 cost := propagation_cost }] }, e.nodes.length)
  let e1 := alloc.1
  let idx_node_new := alloc.2
  let e2 := { e1 with nodes_active := insert idx_node_new e1.nodes_active }
  let e3 := { e2 with
    nodes := modifyChildren e2.nodes idx_node_nearest (fun ch => insert idx_node_new ch) }
  ({ e3 with
      link_parent := insertA e3.link_parent idx_node_new idx_node_nearest,
      edges := insertE e3.edges (idx_node_nearest, idx_node_new)
        ({ control := control_propagate, kind := if is_using_motion_prim then 1 else 0 }) },
   idx_node_new)

/-- `SST::inactivate_node`. -/
def inactivateNode (e : Engine S U) (idx_node : Nat) : Engine S U :=
  { e with nodes_active := e.nodes_active.erase idx_node,
           nodes_inactive := insert idx_node e.nodes_inactive }

/-- The loop of `SST::prune_nodes`, with explicit fuel (the Rust loop
terminates because the parent links of a reachable engine form a tree; any
fuel above the depth of the start node computes the loop's result, see
`prune_nodes_fuel_stable`).  While the current node is childless and not
active: drop it from the inactive set, push it on the freelist, remove it from
the nn index, then delete its parent link, its parent edge and its membership
in the parent's children set and continue with the parent. -/
def pruneLoop [Inhabited S] : Nat → Engine S U → Nat → Engine S U
  | 0, e, _ => e
  | fuel+1, e, node_prune =>
    if (getNode e node_prune).children = ∅ ∧ node_prune ∉ e.nodes_active then
      let e1 := { e with nodes_inactive := e.nodes_inactive.erase node_prune,
                         nodes_freelist := node_prune :: e.nodes_freelist,
                         nn_nodes := e.nn_nodes.filter (fun x => decide (x ≠ node_prune)) }
      match lookupA e1.link_parent node_prune with
      | none => e1
      | some parent_idx =>
        let e2 := { e1 with link_parent := eraseA e1.link_parent node_prune,
                            edges := eraseE e1.edges (parent_idx, node_prune),
                            nodes := modifyChildren e1.nodes parent_idx
                              (fun ch => ch.erase node_prune),
                            stat_pruned_nodes := e1.stat_pruned_nodes + 1 }
        pruneLoop fuel e2 parent_idx
    else e

/-- `pruneLoop` instrumented with the list of node ids visited by the loop
(each id that the loop condition was evaluated on). -/
def pruneVisited [Inhabited S] : Nat → Engine S U → Nat → Engine S U × List Nat
  | 0, e, _ => (e, [])
  | fuel+1, e, node_prune =>
    if (getNode e node_prune).children = ∅ ∧ node_prune ∉ e.nodes_active then
      let e1 := { e with nodes_inactive := e.nodes_inactive.erase node_prune,
                         nodes_freelist := node_prune :: e.nodes_freelist,
                         nn_nodes := e.nn_nodes.filter (fun x => decide (x ≠ node_prune)) }
      match lookupA e1.link_parent node_prune with
      | none => (e1, [node_prune])
      | some parent_idx =>
        let e2 := { e1 with link_parent := eraseA e1.link_parent node_prune,
                            edges := eraseE e1.edges (parent_idx, node_prune),
                            nodes := modifyChildren e1.nodes parent_idx
                              (fun ch => ch.erase node_prune),
                            stat_pruned_nodes := e1.stat_pruned_nodes + 1 }
        let r := pruneVisited fuel e2 parent_idx
        (r.1, node_prune :: r.2)
    else (e, [node_prune])

/-- `SST::witness_representative_disturbance_inject`: every 200 iterations
compute the witness discovery rate of the sliding window; after more than 1000
iterations enable disturbance iff the rate is at most 0.1. -/
def injectDisturbance (e : Engine S U) : Engine S U :=
  if e.iter_exec % 200 = 0 then
    let rate : ℚ := (e.stat_witnesses_new : ℚ) / 200
    let e1 := { e with stat_witnesses_discovery_rate := rate, stat_witnesses_new := 0 }
    if 1000 < e.iter_exec then
      { e1 with witness_disturbance := decide (rate ≤ 1/10) }
    else e1
  else e

/-- `Gaussian::update_params`: keep the samples strictly within twice the
vicinity distance of `mu`, set `count_samples` to one plus their number, and
when the kept set is non-empty move `mu` to `0.9·mu + 0.1·avg(kept)` (the fold
starts from `TS::default()`, modelled by the `Inhabited` default). -/
def gaussUpdate [Inhabited S] (p : Params S U C) (g : Gaussian S) (samples : List S) :
    Gaussian S :=
  let items := samples.filter (fun i => decide (p.ss_metric g.mu i < g.vicinity_dist * 2))
  let cnt := 1 + items.length
  if items.isEmpty then
    { g with count_samples := cnt }
  else
    let l := items.length
    let sum := items.foldl (fun acc x => p.ss_add acc x) (default : S)
    let avg := p.ss_mul sum (1 / (l : ℚ))
    { mu := p.ss_add (p.ss_mul g.mu (9/10)) (p.ss_mul avg (1/10)),
      vicinity_dist := g.vicinity_dist, count_samples := cnt }

/-- `SST::generate_sampling_mixture_prob`: uniform probability over the
mixture components. -/
def genMixtureProb (e : Engine S U) : Engine S U :=
  let count_total : Nat := e.sampling_mixture.foldl (fun acc _ => acc + 1) 0
  { e with
    sampling_mixture_prob :=
      e.sampling_mixture.enum.map (fun iv => (iv.1, (1 : ℚ) / (count_total : ℚ))) }

/-- Stable insertion of `x` into a list sorted by `le` (used to model Rust's
stable `sort_by`). -/
def insStable {α : Type} (le : α → α → Bool) (x : α) : List α → List α
  | [] => [x]
  | y :: ys => if le x y then x :: y :: ys else y :: insStable le x ys

/-- Stable sort by `le` (insertion sort; for a total preorder this computes
exactly the result of Rust's stable `Vec::sort_by`). -/
def sortStable {α : Type} (le : α → α → Bool) (l : List α) : List α :=
  l.foldr (insStable le) []

/-- Descending comparison on `(index, fitness)` pairs: the sort key of
`filtered.sort_by(|a,b| b.1.partial_cmp(&a.1))` in
`save_feasible_trajectory_state_space` (worst fitness first). -/
def fitDesc (a b : Nat × ℚ) : Bool :=
  decide (b.2 ≤ a.2)

/-- The buffered samples filtered by the current `gamma`, as
`(original index, fitness)` pairs. -/
def impFiltered (e : Engine S U) : List (Nat × ℚ) :=
  ((e.importance_samples.enum.map (fun ix => (ix.1, ix.2.1))).filter
    (fun ix => decide ((ix.2 : WithTop ℚ) < e.importance_sample_gamma)))

/-- The filtered samples sorted in decreasing fitness order (worst first). -/
def impSorted (e : Engine S U) : List (Nat × ℚ) :=
  sortStable fitDesc (impFiltered e)

/-- The index of the worst-quantile sample: the source computes
`(0.1 * l_filt as f32) as usize`, i.e. `⌊0.1·l_filt⌋`, which is `l_filt / 10`
(their values agree for every reachable buffer size). -/
def impIdxSel (e : Engine S U) : Nat :=
  (impSorted e).length / 10

/-- The buffer indices of the elite set: every filtered entry strictly after
the selected quantile entry (`filtered.iter().skip(idx_sel+1)`). -/
def impEliteIdxs (e : Engine S U) : List Nat :=
  ((impSorted e).drop (impIdxSel e + 1)).map (fun ix => ix.1)

/-- The pooled elite states: concatenation of the trajectories of the elite
buffer entries. -/
def impEliteStates (e : Engine S U) : List S :=
  ((impEliteIdxs e).map (fun i => (e.importance_samples.getD i (0, [])).2)).flatten

/-- The importance-sampling update step (the `importance_samples.len() >=
num_samples` branch of `save_feasible_trajectory_state_space`): filter by
`gamma`, sort descending, move `gamma` to the `⌊0.1·l⌋`-th fitness, rebuild the
mixture from the elite set when it is non-empty, rebuild the uniform component
probability, clear the buffer.  The `idx_sel >= filtered.len()` branch of the
source deliberately no-ops (it is unreachable, see `impIdxSel_lt`). -/
def importanceUpdate [Inhabited S] (p : Params S U C) (e : Engine S U) : Engine S U :=
  let e0 := { e with optimization_iterations := e.optimization_iterations + 1 }
  let sorted := impSorted e
  let l_filt := sorted.length
  let e1 :=
    if 0 < l_filt then
      let idx_sel := impIdxSel e
      if l_filt ≤ idx_sel then e0
      else
        let e2 := { e0 with importance_sample_gamma := ((sorted.getD idx_sel (0, 0)).2 : ℚ) }
        let sample_idxs := impEliteIdxs e
        if 0 < sample_idxs.length then
          let elite_sample_regions : List S := impEliteStates e
          let mix0 := elite_sample_regions.map (fun x => Gaussian.start x p.delta_s)
          let mix1 := mix0.map (fun g => gaussUpdate p g elite_sample_regions)
          genMixtureProb { e2 with sampling_mixture := mix1 }
        else e2
    else e0
  { e1 with importance_samples := [] }

/-- The root-to-goal chain walk of `save_feasible_trajectory_state_space`
(states collected from the reached node up the parent links; the source bounds
the walk by a `lim` of 1000000 iterations). -/
def chainStates [Inhabited S] : Nat → Engine S U → Nat → List S
  | 0, _, _ => []
  | fuel+1, e, idx =>
    (getNode e idx).state ::
      (match lookupA e.link_parent idx with
       | some parent => chainStates fuel e parent
       | none => [])

/-- The fuel bound of the source's chain walk. -/
def chainFuel : Nat := 1000000

/-- Append the newly found feasible trajectory to the importance buffer:
fitness is the cost at the goal node, the trajectory is the reversed chain. -/
def pushSample [Inhabited S] (e : Engine S U) : Engine S U :=
  let traj : List S :=
    match e.idx_reached with
    | some x => (chainStates chainFuel e x).reverse
    | none => []
  let fitness : ℚ :=
    match e.idx_reached with
    | some x => (getNode e x).cost
    | none => 0
  { e with
    saved_feasible_traj := traj,
    importance_samples := e.importance_samples ++ [(fitness, traj)] }

/-- `SST::save_feasible_trajectory_state_space`: push the new `(fitness,
trajectory)` entry; if the mixture is still empty, bootstrap it with one
Gaussian per trajectory state (sigma `delta_s_orig`, means nudged by
`update_params`, uniform probability); otherwise run the importance update
once 20 samples have accumulated. -/
def saveFeasible [Inhabited S] (p : Params S U C) (e : Engine S U) : Engine S U :=
  let e1 := pushSample e
  if e1.sampling_mixture.isEmpty then
    genMixtureProb { e1 with
      sampling_mixture :=
        e1.saved_feasible_traj.map (fun x =>
          gaussUpdate p (Gaussian.start x p.delta_s) e1.saved_feasible_traj) }
  else if 20 ≤ e1.importance_samples.length then
    importanceUpdate p e1
  else e1

/-- All environment/RNG-dependent inputs consumed by one iteration of
`SST::iterate`: the state-space seeds, the nearest-node id returned by the
node NN query, the selected propagation delta/control pair (Monte-Carlo or
motion primitive), the witness NN query result (`some i` when a witness lies
within `delta_s` of the propagated state) and the disturbance coin. -/
structure StepOracle (S U : Type) where
  seedSampler : S
  seedMixture : S
  idxNearest : Nat
  dt : ℚ
  control : U
  isPrim : Bool
  witnessFound : Option Nat
  disturbCoin : Bool

/-- The seed-state selection at the top of an iteration: sample from the
Gaussian mixture iff the mixture probability map is non-empty, else call
`ss_sampler` (lines 1118-1122 of `sst.rs`). -/
def seedOf (e : Engine S U) (o : StepOracle S U) : S :=
  if e.sampling_mixture_prob.isEmpty then o.seedSampler else o.seedMixture

/-- What one iteration did: nothing (dominated-cost or collision rejection),
inserted a node for a representative-less witness, or inserted a node
replacing representative `r`. -/
inductive StepRes where
  | noChange : StepRes
  | insertedFresh : Nat → StepRes
  | insertedReplacing : Nat → Nat → StepRes
deriving DecidableEq

/-- The id of the inserted node, when one was inserted. -/
def StepRes.newIdx : StepRes → Option Nat
  | noChange => none
  | insertedFresh n => some n
  | insertedReplacing _ n => some n

/-- The propagated state of one iteration (`(self.param.dynamics)(state_start,
param_sample, monte_carlo_prop_delta)`). -/
def stepPropagated [Inhabited S] (p : Params S U C) (e : Engine S U) (o : StepOracle S U) : S :=
  p.dynamics (getNode e o.idxNearest).state o.control o.dt

/-- The witness cell selected by one iteration: the index returned by the
witness query when one lies within `delta_s`, else the index of the witness
freshly created at the propagated state. -/
def witnessIdxOf (e : Engine S U) (o : StepOracle S U) : Nat :=
  match o.witnessFound with
  | some i => i
  | none => e.witnesses.length

/-- The goal check of one iteration (`reached = stop_cond(s', c', goal)`). -/
def stepReached [Inhabited S] (p : Params S U C) (e : Engine S U) (o : StepOracle S U) : Bool :=
  p.stop_cond (stepPropagated p e o)
    (p.project_state_to_config (stepPropagated p e o)) p.states_goal

/-- The admit/reject step of one iteration (lines 1191-1278 of `sst.rs`): if
the witness has a representative, replace it when the new cost is strictly
lower OR the goal was reached OR the disturbance coin fires, subject to the
collision check; if it has none, admit subject to the collision check only. -/
def admitStep [Inhabited S] (p : Params S U C) (e3 : Engine S U) (o : StepOracle S U)
    (witness_idx : Nat) (state_propagate : S) (config_before config_after : C)
    (state_propagate_cost : ℚ) (reached : Bool) : Engine S U × StepRes :=
  match lookupA e3.witness_representative witness_idx with
  | some repr =>
    if decide (state_propagate_cost < (getNode e3 repr).cost) || reached ||
        (e3.witness_disturbance && o.disturbCoin) then
      if p.collides config_before config_after then
        ({ e3 with stat_iter_no_change := e3.stat_iter_no_change + 1,
                   stat_iter_collision := e3.stat_iter_collision + 1 }, StepRes.noChange)
      else
        let ins := insertNode e3 o.idxNearest state_propagate o.control
          state_propagate_cost o.isPrim
        let e5 := if p.pruning_enabled then
            pruneLoop ins.1.nodes.length (inactivateNode ins.1 repr) repr
          else ins.1
        ({ e5 with witness_representative := insertA e5.witness_representative witness_idx ins.2,
                   nn_nodes := ins.2 :: e5.nn_nodes }, StepRes.insertedReplacing repr ins.2)
    else
      ({ e3 with stat_iter_no_change := e3.stat_iter_no_change + 1 }, StepRes.noChange)
  | none =>
    if p.collides config_before config_after then
      ({ e3 with stat_iter_no_change := e3.stat_iter_no_change + 1,
                 stat_iter_collision := e3.stat_iter_collision + 1 }, StepRes.noChange)
    else
      let ins := insertNode e3 o.idxNearest state_propagate o.control
        state_propagate_cost o.isPrim
      ({ ins.1 with witness_representative := insertA ins.1.witness_representative witness_idx ins.2,
                    nn_nodes := ins.2 :: ins.1.nn_nodes }, StepRes.insertedFresh ins.2)

/-- The goal-termination step (lines 1283-1292 of `sst.rs`): on a goal-reaching
insertion record `idx_reached`, save the feasible trajectory and break. -/
def goalStep [Inhabited S] (p : Params S U C) (mainE : Engine S U) (res : StepRes)
    (reached : Bool) : Engine S U × StepRes × Bool :=
  match StepRes.newIdx res, reached with
  | some n, true => (saveFeasible p { mainE with idx_reached := some n }, res, true)
  | _, _ => (mainE, res, false)

/-- Steps 1-8 of one loop body of `SST::iterate`: reset the radii, bump
`iter_exec`, append the freshly created witness when the witness query came
back empty, and (when witness disturbance is compiled in) update the
witness-discovery statistics and inject disturbance. -/
def stepMid [Inhabited S] (p : Params S U C) (e : Engine S U) (o : StepOracle S U) :
    Engine S U :=
  let e1 := { e with delta_v := p.delta_v, delta_s := p.delta_s, iter_exec := e.iter_exec + 1 }
  let wq : Bool × Engine S U :=
    match o.witnessFound with
    | some _ => (false, e1)
    | none => (true, { e1 with witnesses := e1.witnesses ++ [stepPropagated p e o] })
  if p.disturbance_enabled then
    injectDisturbance { wq.2 with
      stat_witnesses_new := wq.2.stat_witnesses_new + (if wq.1 then 1 else 0) }
  else wq.2

/-- One body of the `'l_outer` loop of `SST::iterate` (lines 1104-1292):
`stepMid` (radii, `iter_exec`, witness lookup/creation, disturbance
injection), then the admission match on the propagated state, then the
goal-termination step.  Returns the new engine, what happened, and whether
the batch loop breaks. -/
def iterBody [Inhabited S] (p : Params S U C) (e : Engine S U) (o : StepOracle S U) :
    Engine S U × StepRes × Bool :=
  let e3 := stepMid p e o
  let main := admitStep p e3 o (witnessIdxOf e o) (stepPropagated p e o)
    (p.project_state_to_config (getNode e o.idxNearest).state)
    (p.project_state_to_config (stepPropagated p e o))
    ((getNode e o.idxNearest).cost + o.dt) (stepReached p e o)
  goalStep p main.1 main.2 (stepReached p e o)

/-- The `'l_outer: for i in 0..iter_batch` loop of `SST::iterate`, breaking on
a goal-reaching insertion. -/
def runBatch [Inhabited S] (p : Params S U C) : Engine S U → Nat → (Nat → StepOracle S U) →
    Engine S U
  | e, 0, _ => e
  | e, n+1, os =>
    let r := iterBody p e (os 0)
    if r.2.2 then r.1 else runBatch p r.1 n (fun i => os (i+1))

/-- `SST::iterate`: return `false` immediately when the run is finished
(`idx_reached` set or `iter_exec` at the bound), otherwise run a batch of at
most `iteration.get_or(iterations_bound)` loop bodies and return `true`. -/
def iterate [Inhabited S] (p : Params S U C) (e : Engine S U) (iteration : Option Nat)
    (os : Nat → StepOracle S U) : Engine S U × Bool :=
  if e.idx_reached.isSome || decide (p.iterations_bound ≤ e.iter_exec) then
    (e, false)
  else
    (runBatch p e (match iteration with | some x => x | none => p.iterations_bound) os, true)

/-- `SST::init`: a single root node carrying `states_init` with cost 0, one
witness at `states_init` represented by the root, everything else empty;
`gamma` starts at `+∞`. -/
def initEngine (p : Params S U C) : Engine S U :=
  { nodes := [{ id := 0, state := p.states_init, children := ∅, cost := 0 }],
    nodes_freelist := [],
    nodes_active := {0},
    nodes_inactive := ∅,
    link_parent := [],
    edges := [],
    witnesses := [p.states_init],
    witness_representative := [(0, 0)],
    delta_v := p.delta_v,
    delta_s := p.delta_s,
    nn_nodes := [0],
    stat_pruned_nodes := 0,
    stat_iter_no_change := 0,
    stat_iter_collision := 0,
    iter_exec := 0,
    idx_reached := none,
    stat_witnesses_new := 0,
    stat_witnesses_discovery_rate := 0,
    witness_disturbance := false,
    sampling_mixture := [],
    saved_feasible_traj := [],
    sampling_mixture_prob := [],
    importance_samples := [],
    importance_sample_gamma := ⊤,
    optimization_iterations := 0 }

/-- `SST::reset` (lines 1038-1085 of `sst.rs`): reinitialise the tree, the
witness set, the parent links, the freelist, the counters and the NN indices;
the sampling mixture, its probability map, the importance buffer, `gamma`,
the saved trajectory and the disturbance state are NOT touched. -/
def resetEngine (p : Params S U C) (e : Engine S U) : Engine S U :=
  { e with
    nodes := [{ id := 0, state := p.states_init, children := ∅, cost := 0 }],
    edges := [],
    witness_representative := [(0, 0)],
    witnesses := [p.states_init],
    nodes_active := {0},
    nodes_inactive := ∅,
    link_parent := [],
    nodes_freelist := [],
    stat_pruned_nodes := 0,
    stat_iter_no_change := 0,
    stat_iter_collision := 0,
    iter_exec := 0,
    idx_reached := none,
    nn_nodes := [0] }

/-- The guarantees of the NN indices consumed by one iteration: the nearest
node returned by the node query is a live (never freed) id, and a witness
returned by the nearest-within-threshold query is within `delta_s` of the
propagated state (the reference semantics of `query_nearest_threshold`). -/
structure OracleOK [Inhabited S] (p : Params S U C) (e : Engine S U) (o : StepOracle S U) :
    Prop where
  nearest_lt : o.idxNearest < e.nodes.length
  nearest_not_free : o.idxNearest ∉ e.nodes_freelist
  witness_within : ∀ i, o.witnessFound = some i →
    i < e.witnesses.length ∧
      p.ss_metric (e.witnesses.getD i default) (stepPropagated p e o) ≤ p.delta_s

/-- Engine states reachable from `init` by iteration bodies (with well-behaved
NN queries) and facade `reset()` calls. -/
inductive Reachable [Inhabited S] (p : Params S U C) : Engine S U → Prop where
  | init : Reachable p (initEngine p)
  | step {e : Engine S U} {o : StepOracle S U} :
      Reachable p e → OracleOK p e o → Reachable p (iterBody p e o).1
  | reset {e : Engine S U} : Reachable p e → Reachable p (resetEngine p e)

/-! ### Association-list lemmas -/

/-- A concrete 1-D instance (states, controls and configurations are `ℚ`): the
dynamics integrate the time delta, the metric is the absolute difference, the
projection is the identity and there are no obstacles. -/
def pQ : Params ℚ ℚ ℚ :=
  { states_init := 0, states_goal := 1, iterations_bound := 100,
    ss_metric := fun a b => |a - b|,
    project_state_to_config := fun s => s,
    dynamics := fun s _ t => s + t,
    stop_cond := fun _ c g => decide (c = g),
    collides := fun _ _ => false,
    ss_add := fun a b => a + b,
    ss_mul := fun a q => a * q,
    delta_v := 1, delta_s := 10,
    disturbance_enabled := false, pruning_enabled := true }

/-- Engine used in the reset counterexample: mixture, probability map,
importance buffer and `gamma` all hold non-initial values. -/
def eC3 : Engine ℚ ℚ :=
  { initEngine pQ with
    sampling_mixture := [Gaussian.start 7 1],
    sampling_mixture_prob := [(0, 1)],
    importance_samples := [(3, [0, 1])],
    importance_sample_gamma := ((5 : ℚ) : WithTop ℚ) }

/-- Parameters for the C10 witness: everything collides. -/
def pC10 : Params ℚ ℚ ℚ :=
  { pQ with collides := fun _ _ => true }

/-- Oracle for the C10 witness: no witness within `delta_s` of the propagated
state, so a new witness is created. -/
def oC10 : StepOracle ℚ ℚ :=
  { seedSampler := 0, seedMixture := 0, idxNearest := 0, dt := 5, control := 0,
    isPrim := false, witnessFound := none, disturbCoin := false }

/-- Parameters for the C1 counterexample: the goal condition always holds, so
every admission is goal-triggered. -/
def pC1cex : Params ℚ ℚ ℚ :=
  { pQ with stop_cond := fun _ _ _ => true }

/-- Oracle for the C1 counterexample: propagate from the root for 5 time
units, landing in the root witness's cell. -/
def oC1 : StepOracle ℚ ℚ :=
  { seedSampler := 0, seedMixture := 0, idxNearest := 0, dt := 5, control := 0,
    isPrim := false, witnessFound := some 0, disturbCoin := false }

/-- Engine for the C1 witness: a second node of cost 10 represents witness 1. -/
def eC1 : Engine ℚ ℚ :=
  { initEngine pQ with
    nodes := [{ id := 0, state := 0, children := ∅, cost := 0 },
              { id := 1, state := 3, children := ∅, cost := 10 }],
    nodes_active := {0, 1},
    witnesses := [0, 3],
    witness_representative := [(0, 0), (1, 1)] }

/-- Oracle for the C1 witness: propagate from the root for 2 time units into
witness 1's cell; the goal (configuration 1) is not reached. -/
def oC1b : StepOracle ℚ ℚ :=
  { seedSampler := 0, seedMixture := 0, idxNearest := 0, dt := 2, control := 0,
    isPrim := false, witnessFound := some 1, disturbCoin := false }

/-- Engine for the C5 witness: a feasible trajectory was just found (goal node
1, cost 7), the mixture is non-empty, and the buffer holds 19 entries of
fitness 20 under `gamma = +∞`; the triggered update lowers `gamma` to 20. -/
def eC5 : Engine ℚ ℚ :=
  { initEngine pQ with
    nodes := [{ id := 0, state := 0, children := {1}, cost := 0 },
              { id := 1, state := 5, children := ∅, cost := 7 }],
    nodes_active := {0, 1},
    link_parent := [(1, 0)],
    idx_reached := some 1,
    sampling_mixture := [Gaussian.start 0 10],
    importance_samples := List.replicate 19 ((20 : ℚ), [(0 : ℚ)]) }

/-- Engine for the C6 counterexample: `gamma = 5`, 19 buffered entries of
fitness 7 (filtered out) and a fresh goal trajectory of fitness 3, so the
filtered set is a singleton and the elite set (entries after index
`⌊0.1·1⌋ = 0`) is empty. -/
def eC6 : Engine ℚ ℚ :=
  { initEngine pQ with
    nodes := [{ id := 0, state := 0, children := {1}, cost := 0 },
              { id := 1, state := 5, children := ∅, cost := 3 }],
    nodes_active := {0, 1},
    link_parent := [(1, 0)],
    idx_reached := some 1,
    sampling_mixture := [Gaussian.start 9 1],
    sampling_mixture_prob := [(0, 1)],
    importance_sample_gamma := ((5 : ℚ) : WithTop ℚ),
    importance_samples := List.replicate 19 ((7 : ℚ), [(0 : ℚ)]) }

/-- Concrete engine for the C9 witness: empty mixture, node 0 just reached. -/
def eC9 : Engine ℚ ℚ :=
  { initEngine pQ with idx_reached := some 0 }

/-- Concrete engine for the C7 witness: a three-node chain `2 → 1 → 0` where
only the root is active and the two chain nodes are childless-inactive (node 1
becomes childless once node 2 is pruned). -/
def eC7 : Engine ℚ ℚ :=
  { initEngine pQ with
    nodes := [{ id := 0, state := 0, children := {1}, cost := 0 },
              { id := 1, state := 1, children := {2}, cost := 1 },
              { id := 2, state := 2, children := ∅, cost := 2 }],
    nodes_active := {0},
    nodes_inactive := {1, 2},
    link_parent := [(2, 1), (1, 0)] }

/-- The tree-shape component of well-formedness: the freelist is duplicate
free, bounded and disjoint from the active set and the edge set, parent links
point below the node count and outside the freelist, every linked child is in
its parent's child set, and the edge map is consistent with the parent links
and the child sets.  `edge_safe` is the C4 payload: the configuration-space
segment of every stored edge is collision free. -/
structure CoreWF [Inhabited S] (p : Params S U C) (e : Engine S U) : Prop where
  fl_lt : ∀ f ∈ e.nodes_freelist, f < e.nodes.length
  fl_not_active : ∀ f ∈ e.nodes_freelist, f ∉ e.nodes_active
  fl_nodup : e.nodes_freelist.Nodup
  lp_val_lt : ∀ c q, lookupA e.link_parent c = some q → q < e.nodes.length
  lp_val_not_free : ∀ c q, lookupA e.link_parent c = some q → q ∉ e.nodes_freelist
  lp_child : ∀ c q, lookupA e.link_parent c = some q → c ∈ (getNode e q).children
  edge_lt : ∀ a b ed, lookupE e.edges (a, b) = some ed →
    a < e.nodes.length ∧ b < e.nodes.length
  edge_par : ∀ a b ed, lookupE e.edges (a, b) = some ed →
    lookupA e.link_parent b = some a
  edge_child : ∀ a b ed, lookupE e.edges (a, b) = some ed → b ∈ (getNode e a).children
  fl_no_edge : ∀ f ∈ e.nodes_freelist, ∀ a b ed, lookupE e.edges (a, b) = some ed →
    a ≠ f ∧ b ≠ f
  edge_safe : ∀ a b ed, lookupE e.edges (a, b) = some ed →
    p.collides (p.project_state_to_config (getNode e a).state)
      (p.project_state_to_config (getNode e b).state) = false

/-- Full well-formedness: the tree shape plus the witness-representative map
(indices in range, representatives active and pairwise distinct).  `wr_metric`
is the C2 payload: every witness with a representative `r` has `r`'s state
within `delta_s` of the witness state. -/
structure WF [Inhabited S] (p : Params S U C) (e : Engine S U) : Prop where
  core : CoreWF p e
  wr_key_lt : ∀ w r, lookupA e.witness_representative w = some r → w < e.witnesses.length
  wr_val_lt : ∀ w r, lookupA e.witness_representative w = some r → r < e.nodes.length
  wr_active : ∀ w r, lookupA e.witness_representative w = some r → r ∈ e.nodes_active
  wr_inj : ∀ w w' r, lookupA e.witness_representative w = some r →
    lookupA e.witness_representative w' = some r → w = w'
  wr_metric : ∀ w r, lookupA e.witness_representative w = some r →
    p.ss_metric (e.witnesses.getD w default) (getNode e r).state ≤ p.delta_s

/-- The engine after `pruneLoop` frees a parentless node (alias of the
`e1`/`none` case of the loop body). -/
def pruneFreeEngine (e : Engine S U) (np : Nat) : Engine S U :=
  { e with nodes_inactive := e.nodes_inactive.erase np,
           nodes_freelist := np :: e.nodes_freelist,
           nn_nodes := e.nn_nodes.filter (fun x => decide (x ≠ np)) }

/-- The engine after `pruneLoop` frees a node and unlinks it from its parent
(alias of the `e2`/`some parent` case of the loop body). -/
def pruneStepEngine (e : Engine S U) (np par : Nat) : Engine S U :=
  { e with nodes_inactive := e.nodes_inactive.erase np,
           nodes_freelist := np :: e.nodes_freelist,
           nn_nodes := e.nn_nodes.filter (fun x => decide (x ≠ np)),
           link_parent := eraseA e.link_parent np,
           edges := eraseE e.edges (par, np),
           nodes := modifyChildren e.nodes par (fun ch => ch.erase np),
           stat_pruned_nodes := e.stat_pruned_nodes + 1 }

/-- Oracle for one concrete iteration from the initial engine: propagate from
the root by `dt = 5` with no witness found within `delta_s`, so a fresh
witness and a fresh node (with the edge `(0, 1)`) are created. -/
def oC4 : StepOracle ℚ ℚ :=
  { seedSampler := 0, seedMixture := 0, idxNearest := 0, dt := 5, control := 0,
    isPrim := false, witnessFound := none, disturbCoin := false }

theorem lookupA_mem {β : Type} {m : List (Nat × β)} {k : Nat} {v : β}
    (h : lookupA m k = some v) : (k, v) ∈ m := by
  unfold lookupA at h
  rcases Option.map_eq_some'.mp h with ⟨q, hf, hq⟩
  have hk : q.1 = k := by
    have := List.find?_some hf
    simpa using this
  have hm := List.mem_of_find?_eq_some hf
  have : q = (k, v) := by
    cases q
    simp_all
  rwa [this] at hm

theorem lookupA_cons {β : Type} (a : Nat) (b : β) (m : List (Nat × β)) (k : Nat) :
    lookupA ((a, b) :: m) k = if a = k then some b else lookupA m k := by
  unfold lookupA
  by_cases h : a = k <;> simp [List.find?, h]

theorem lookupA_nil {β : Type} (k : Nat) : lookupA ([] : List (Nat × β)) k = none := rfl

theorem lookupA_eraseA {β : Type} (m : List (Nat × β)) (k k' : Nat) :
    lookupA (eraseA m k) k' = if k' = k then none else lookupA m k' := by
  induction m with
  | nil => simp [eraseA, lookupA_nil]
  | cons q m ih =>
    cases q with
    | mk a b =>
      have hfc : eraseA ((a, b) :: m) k =
          if a ≠ k then (a, b) :: eraseA m k else eraseA m k := by
        simp only [eraseA, List.filter_cons]
        by_cases hak : a = k <;> simp [hak]
      by_cases hak : a = k
      · rw [hfc, if_neg (by simp [hak])]
        rw [ih]
        by_cases hk : k' = k
        · simp [hk]
        · rw [if_neg hk, if_neg hk, lookupA_cons,
             if_neg (show ¬ a = k' from fun h => hk (by rw [← h]; exact hak))]
      · rw [hfc, if_pos hak, lookupA_cons, lookupA_cons, ih]
        by_cases hak' : a = k'
        · rw [if_pos hak', if_neg (show ¬ k' = k from fun h => hak (hak'.trans h)),
             if_pos hak']
        · simp [hak']

theorem lookupA_insertA {β : Type} (m : List (Nat × β)) (k : Nat) (v : β) (k' : Nat) :
    lookupA (insertA m k v) k' = if k' = k then some v else lookupA m k' := by
  unfold insertA
  rw [lookupA_cons]
  by_cases h : k' = k
  · rw [if_pos h.symm, if_pos h]
  · rw [if_neg (fun hh => h hh.symm), if_neg h, lookupA_eraseA, if_neg h]

theorem lookupA_eraseA_imp {β : Type} {m : List (Nat × β)} {k k' : Nat} {v : β}
    (h : lookupA (eraseA m k) k' = some v) : lookupA m k' = some v := by
  rw [lookupA_eraseA] at h
  by_cases hk : k' = k <;> simp_all

/-! ### `List.getD` lemmas used for node and witness access -/

theorem getD_append_lt {α : Type} (l₁ l₂ : List α) (i : Nat) (d : α) (h : i < l₁.length) :
    (l₁ ++ l₂).getD i d = l₁.getD i d := by
  rw [List.getD_eq_getElem?_getD, List.getD_eq_getElem?_getD, List.getElem?_append]
  simp [h]

theorem getD_set_ne {α : Type} (l : List α) (i j : Nat) (a d : α) (h : i ≠ j) :
    (l.set i a).getD j d = l.getD j d := by
  rw [List.getD_eq_getElem?_getD, List.getD_eq_getElem?_getD, List.getElem?_set_ne h]

theorem getD_set_self {α : Type} (l : List α) (i : Nat) (a d : α) (h : i < l.length) :
    (l.set i a).getD i d = a := by
  rw [List.getD_eq_getElem?_getD, List.getElem?_set_self h]
  rfl

theorem getD_append_self {α : Type} (l : List α) (a d : α) :
    (l ++ [a]).getD l.length d = a := by
  rw [List.getD_eq_getElem?_getD, List.getElem?_append_right (Nat.le_refl _)]
  simp

theorem getD_modify_ne {α : Type} (f : α → α) (n : Nat) (l : List α) (m : Nat) (d : α)
    (h : n ≠ m) : (List.modify f n l).getD m d = l.getD m d := by
  rw [List.getD_eq_getElem?_getD, List.getD_eq_getElem?_getD, List.getElem?_modify]
  simp [h]

/-! ### Frame lemmas for `getNode` through the tree operations -/

theorem getNode_modifyChildren_state [Inhabited S] (nodes : List (Node S))
    (i j : Nat) (f : Finset Nat → Finset Nat) :
    ((modifyChildren nodes i f).getD j default).state = (nodes.getD j default).state := by
  unfold modifyChildren
  rw [List.getD_eq_getElem?_getD, List.getD_eq_getElem?_getD, List.getElem?_modify]
  cases h : nodes[j]? with
  | none => rfl
  | some n => by_cases hij : i = j <;> simp [hij]

theorem getNode_modifyChildren_cost [Inhabited S] (nodes : List (Node S))
    (i j : Nat) (f : Finset Nat → Finset Nat) :
    ((modifyChildren nodes i f).getD j default).cost = (nodes.getD j default).cost := by
  unfold modifyChildren
  rw [List.getD_eq_getElem?_getD, List.getD_eq_getElem?_getD, List.getElem?_modify]
  cases h : nodes[j]? with
  | none => rfl
  | some n => by_cases hij : i = j <;> simp [hij]

theorem length_modifyChildren (nodes : List (Node S)) (i : Nat)
    (f : Finset Nat → Finset Nat) :
    (modifyChildren nodes i f).length = nodes.length := by
  unfold modifyChildren
  exact List.length_modify ..

/-! ### Shape lemmas: which fields an operation can touch -/

theorem injectDisturbance_eq (e : Engine S U) :
    ∃ r n b, injectDisturbance e =
      { e with stat_witnesses_discovery_rate := r, stat_witnesses_new := n,
               witness_disturbance := b } := by
  unfold injectDisturbance
  by_cases h1 : e.iter_exec % 200 = 0
  · rw [if_pos h1]
    by_cases h2 : 1000 < e.iter_exec
    · rw [if_pos h2]
      exact ⟨_, _, _, rfl⟩
    · rw [if_neg h2]
      exact ⟨_, _, e.witness_disturbance, rfl⟩
  · rw [if_neg h1]
    exact ⟨e.stat_witnesses_discovery_rate, e.stat_witnesses_new, e.witness_disturbance, rfl⟩

theorem injectDisturbance_witnesses (e : Engine S U) :
    (injectDisturbance e).witnesses = e.witnesses := by
  rcases injectDisturbance_eq e with ⟨r, n, b, h⟩
  rw [h]

theorem injectDisturbance_wr (e : Engine S U) :
    (injectDisturbance e).witness_representative = e.witness_representative := by
  rcases injectDisturbance_eq e with ⟨r, n, b, h⟩
  rw [h]

theorem importanceUpdate_shape [Inhabited S] (p : Params S U C) (e : Engine S U) :
    ∃ oi g mix prob, importanceUpdate p e =
      { e with optimization_iterations := oi, importance_sample_gamma := g,
               sampling_mixture := mix, sampling_mixture_prob := prob,
               importance_samples := [] } := by
  unfold importanceUpdate genMixtureProb
  dsimp only
  repeat' split
  all_goals exact ⟨_, _, _, _, rfl⟩

theorem saveFeasible_shape [Inhabited S] (p : Params S U C) (e : Engine S U) :
    ∃ st buf oi g mix prob, saveFeasible p e =
      { e with saved_feasible_traj := st, importance_samples := buf,
               optimization_iterations := oi, importance_sample_gamma := g,
               sampling_mixture := mix, sampling_mixture_prob := prob } := by
  unfold saveFeasible
  dsimp only
  split
  · unfold genMixtureProb pushSample
    dsimp only
    exact ⟨_, _, e.optimization_iterations, e.importance_sample_gamma, _, _, rfl⟩
  · split
    · rcases importanceUpdate_shape p (pushSample e) with ⟨oi, g, mix, prob, h⟩
      rw [h]
      unfold pushSample
      dsimp only
      exact ⟨_, _, _, _, _, _, rfl⟩
    · unfold pushSample
      dsimp only
      exact ⟨_, _, e.optimization_iterations, e.importance_sample_gamma,
        e.sampling_mixture, e.sampling_mixture_prob, rfl⟩

theorem saveFeasible_nodes [Inhabited S] (p : Params S U C) (e : Engine S U) :
    (saveFeasible p e).nodes = e.nodes := by
  rcases saveFeasible_shape p e with ⟨a, b, c, d, f, g, h⟩
  rw [h]

theorem saveFeasible_witnesses [Inhabited S] (p : Params S U C) (e : Engine S U) :
    (saveFeasible p e).witnesses = e.witnesses := by
  rcases saveFeasible_shape p e with ⟨a, b, c, d, f, g, h⟩
  rw [h]

theorem saveFeasible_wr [Inhabited S] (p : Params S U C) (e : Engine S U) :
    (saveFeasible p e).witness_representative = e.witness_representative := by
  rcases saveFeasible_shape p e with ⟨a, b, c, d, f, g, h⟩
  rw [h]

theorem saveFeasible_edges [Inhabited S] (p : Params S U C) (e : Engine S U) :
    (saveFeasible p e).edges = e.edges := by
  rcases saveFeasible_shape p e with ⟨a, b, c, d, f, g, h⟩
  rw [h]

theorem saveFeasible_active [Inhabited S] (p : Params S U C) (e : Engine S U) :
    (saveFeasible p e).nodes_active = e.nodes_active := by
  rcases saveFeasible_shape p e with ⟨a, b, c, d, f, g, h⟩
  rw [h]

theorem saveFeasible_inactive [Inhabited S] (p : Params S U C) (e : Engine S U) :
    (saveFeasible p e).nodes_inactive = e.nodes_inactive := by
  rcases saveFeasible_shape p e with ⟨a, b, c, d, f, g, h⟩
  rw [h]

theorem saveFeasible_freelist [Inhabited S] (p : Params S U C) (e : Engine S U) :
    (saveFeasible p e).nodes_freelist = e.nodes_freelist := by
  rcases saveFeasible_shape p e with ⟨a, b, c, d, f, g, h⟩
  rw [h]

theorem saveFeasible_link_parent [Inhabited S] (p : Params S U C) (e : Engine S U) :
    (saveFeasible p e).link_parent = e.link_parent := by
  rcases saveFeasible_shape p e with ⟨a, b, c, d, f, g, h⟩
  rw [h]

/-! ### Concrete instances for witnesses and counterexamples -/

/-! ### C8: the return value of `iterate` -/

/-- C8: `iterate(batch)` returns `false` if and only if the run is finished at
entry, i.e. `idx_reached` is already set or `iter_exec` has reached
`iterations_bound`; otherwise it runs a batch of loop bodies and returns
`true`. -/
theorem iterate_false_iff_finished [Inhabited S] (p : Params S U C) (e : Engine S U)
    (iteration : Option Nat) (os : Nat → StepOracle S U) :
    (iterate p e iteration os).2 = false ↔
      (e.idx_reached.isSome = true ∨ p.iterations_bound ≤ e.iter_exec) := by
  unfold iterate
  by_cases h : (e.idx_reached.isSome || decide (p.iterations_bound ≤ e.iter_exec)) = true
  · rw [if_pos h]
    simp only [Bool.or_eq_true, decide_eq_true_eq] at h
    exact iff_of_true rfl h
  · rw [if_neg h]
    simp only [Bool.or_eq_true, decide_eq_true_eq, not_or, Bool.not_eq_true] at h
    constructor
    · intro hc
      simp at hc
    · intro hc
      rcases hc with hc | hc
      · rw [h.1] at hc
        cases hc
      · exact absurd hc h.2

/-! ### C3: what `reset()` restores -/

/-- C3 counterexample: after `reset()` the Gaussian mixture, the component
probabilities, the importance buffer and `gamma` are NOT restored to their
initial values (empty, empty, empty, `+∞`): on `eC3` all four keep their
non-initial values. -/
theorem reset_restores_importance_state_cex :
    ¬ ((resetEngine pQ eC3).sampling_mixture = [] ∧
       (resetEngine pQ eC3).sampling_mixture_prob = [] ∧
       (resetEngine pQ eC3).importance_samples = [] ∧
       (resetEngine pQ eC3).importance_sample_gamma = ⊤) := by
  decide

/-- C3 (amended): `reset()` reinitialises the propagation tree, the witness
set, the representative map, the parent links, the freelist and the run
counters, but leaves the Gaussian sampling mixture, the mixture component
probabilities, the importance sample buffer and the acceptance threshold
`gamma` exactly as they were. -/
theorem reset_reinitialises_tree_keeps_importance_state (p : Params S U C) (e : Engine S U) :
    (resetEngine p e).sampling_mixture = e.sampling_mixture ∧
    (resetEngine p e).sampling_mixture_prob = e.sampling_mixture_prob ∧
    (resetEngine p e).importance_samples = e.importance_samples ∧
    (resetEngine p e).importance_sample_gamma = e.importance_sample_gamma ∧
    (resetEngine p e).nodes = [{ id := 0, state := p.states_init, children := ∅, cost := 0 }] ∧
    (resetEngine p e).edges = [] ∧
    (resetEngine p e).witnesses = [p.states_init] ∧
    (resetEngine p e).witness_representative = [(0, 0)] ∧
    (resetEngine p e).nodes_active = {0} ∧
    (resetEngine p e).nodes_inactive = ∅ ∧
    (resetEngine p e).link_parent = [] ∧
    (resetEngine p e).nodes_freelist = [] ∧
    (resetEngine p e).iter_exec = 0 ∧
    (resetEngine p e).idx_reached = none :=
  ⟨rfl, rfl, rfl, rfl, rfl, rfl, rfl, rfl, rfl, rfl, rfl, rfl, rfl, rfl⟩

theorem getD_append_ne {α : Type} (l : List α) (a d : α) (i : Nat) (h : i ≠ l.length) :
    (l ++ [a]).getD i d = l.getD i d := by
  rcases Nat.lt_or_ge i l.length with hlt | hge
  · exact getD_append_lt l [a] i d hlt
  · have hgt : l.length < i := lt_of_le_of_ne hge (fun hh => h hh.symm)
    rw [List.getD_eq_getElem?_getD, List.getD_eq_getElem?_getD, List.getElem?_append_right hge]
    have h1 : l[i]? = none := List.getElem?_eq_none hge
    have h2 : [a][i - l.length]? = none := by
      apply List.getElem?_eq_none
      simp only [List.length_singleton]
      omega
    rw [h1, h2]

/-- Fields of the engine that `pruneLoop` can never change. -/
theorem pruneLoop_frame [Inhabited S] (fuel : Nat) (e : Engine S U) (np : Nat) :
    (pruneLoop fuel e np).witnesses = e.witnesses ∧
    (pruneLoop fuel e np).witness_representative = e.witness_representative ∧
    (pruneLoop fuel e np).nodes_active = e.nodes_active ∧
    (pruneLoop fuel e np).nodes.length = e.nodes.length ∧
    (∀ i, ((pruneLoop fuel e np).nodes.getD i default).state = (e.nodes.getD i default).state) ∧
    (∀ i, ((pruneLoop fuel e np).nodes.getD i default).cost = (e.nodes.getD i default).cost) ∧
    (pruneLoop fuel e np).idx_reached = e.idx_reached ∧
    (pruneLoop fuel e np).sampling_mixture = e.sampling_mixture ∧
    (pruneLoop fuel e np).sampling_mixture_prob = e.sampling_mixture_prob ∧
    (pruneLoop fuel e np).importance_samples = e.importance_samples ∧
    (pruneLoop fuel e np).importance_sample_gamma = e.importance_sample_gamma ∧
    (pruneLoop fuel e np).stat_iter_no_change = e.stat_iter_no_change ∧
    (pruneLoop fuel e np).stat_iter_collision = e.stat_iter_collision := by
  induction fuel generalizing e np with
  | zero =>
    exact ⟨rfl, rfl, rfl, rfl, fun i => rfl, fun i => rfl, rfl, rfl, rfl, rfl, rfl, rfl, rfl⟩
  | succ f ih =>
    unfold pruneLoop
    dsimp only
    split
    · split
      · exact ⟨rfl, rfl, rfl, rfl, fun i => rfl, fun i => rfl, rfl, rfl, rfl, rfl, rfl, rfl, rfl⟩
      · rename_i hcond par hpar
        rcases ih _ par with ⟨h1, h2, h3, h4, h5, h6, h7, h8, h9, h10, h11, h12, h13⟩
        refine ⟨h1.trans rfl, h2.trans rfl, h3.trans rfl, ?_, ?_, ?_, h7.trans rfl,
          h8.trans rfl, h9.trans rfl, h10.trans rfl, h11.trans rfl, h12.trans rfl,
          h13.trans rfl⟩
        · rw [h4]
          dsimp only
          exact length_modifyChildren ..
        · intro i
          rw [h5 i]
          dsimp only
          exact getNode_modifyChildren_state ..
        · intro i
          rw [h6 i]
          dsimp only
          exact getNode_modifyChildren_cost ..
    · exact ⟨rfl, rfl, rfl, rfl, fun i => rfl, fun i => rfl, rfl, rfl, rfl, rfl, rfl, rfl, rfl⟩

/-- Fields of the engine that `insertNode` can never change. -/
theorem insertNode_frame [Inhabited S] (e : Engine S U) (idxN : Nat) (st : S) (u : U)
    (c : ℚ) (b : Bool) :
    (insertNode e idxN st u c b).1.witnesses = e.witnesses ∧
    (insertNode e idxN st u c b).1.witness_representative = e.witness_representative ∧
    (insertNode e idxN st u c b).1.nodes_inactive = e.nodes_inactive ∧
    (insertNode e idxN st u c b).1.idx_reached = e.idx_reached ∧
    (insertNode e idxN st u c b).1.stat_iter_no_change = e.stat_iter_no_change ∧
    (insertNode e idxN st u c b).1.stat_iter_collision = e.stat_iter_collision ∧
    (insertNode e idxN st u c b).1.sampling_mixture = e.sampling_mixture ∧
    (insertNode e idxN st u c b).1.sampling_mixture_prob = e.sampling_mixture_prob ∧
    (insertNode e idxN st u c b).1.importance_samples = e.importance_samples ∧
    (insertNode e idxN st u c b).1.importance_sample_gamma = e.importance_sample_gamma := by
  unfold insertNode
  dsimp only
  cases e.nodes_freelist with
  | nil => exact ⟨rfl, rfl, rfl, rfl, rfl, rfl, rfl, rfl, rfl, rfl⟩
  | cons slot rest => exact ⟨rfl, rfl, rfl, rfl, rfl, rfl, rfl, rfl, rfl, rfl⟩

/-- The state and cost stored in the newly inserted node. -/
theorem insertNode_getNew [Inhabited S] (e : Engine S U) (idxN : Nat) (st : S) (u : U)
    (c : ℚ) (b : Bool) (hfl : ∀ f ∈ e.nodes_freelist, f < e.nodes.length) :
    (getNode (insertNode e idxN st u c b).1 (insertNode e idxN st u c b).2).state = st ∧
    (getNode (insertNode e idxN st u c b).1 (insertNode e idxN st u c b).2).cost = c := by
  unfold insertNode getNode
  dsimp only
  cases hc : e.nodes_freelist with
  | nil =>
    dsimp only
    constructor
    · rw [getNode_modifyChildren_state, getD_append_self]
    · rw [getNode_modifyChildren_cost, getD_append_self]
  | cons slot rest =>
    dsimp only
    have hslot : slot < e.nodes.length := hfl slot (by rw [hc]; exact List.mem_cons_self ..)
    constructor
    · rw [getNode_modifyChildren_state, getD_set_self _ _ _ _ hslot]
    · rw [getNode_modifyChildren_cost, getD_set_self _ _ _ _ hslot]

theorem pruneLoop_witnesses [Inhabited S] (fuel : Nat) (e : Engine S U) (np : Nat) :
    (pruneLoop fuel e np).witnesses = e.witnesses :=
  (pruneLoop_frame fuel e np).1

theorem insertNode_witnesses [Inhabited S] (e : Engine S U) (idxN : Nat) (st : S) (u : U)
    (c : ℚ) (b : Bool) :
    (insertNode e idxN st u c b).1.witnesses = e.witnesses :=
  (insertNode_frame e idxN st u c b).1

/-! ### Per-field frame lemmas for `injectDisturbance` -/

theorem injectDisturbance_nodes (e : Engine S U) :
    (injectDisturbance e).nodes = e.nodes := by
  rcases injectDisturbance_eq e with ⟨r, n, b, h⟩
  rw [h]

theorem injectDisturbance_freelist (e : Engine S U) :
    (injectDisturbance e).nodes_freelist = e.nodes_freelist := by
  rcases injectDisturbance_eq e with ⟨r, n, b, h⟩
  rw [h]

theorem injectDisturbance_active (e : Engine S U) :
    (injectDisturbance e).nodes_active = e.nodes_active := by
  rcases injectDisturbance_eq e with ⟨r, n, b, h⟩
  rw [h]

theorem injectDisturbance_inactive (e : Engine S U) :
    (injectDisturbance e).nodes_inactive = e.nodes_inactive := by
  rcases injectDisturbance_eq e with ⟨r, n, b, h⟩
  rw [h]

theorem injectDisturbance_link_parent (e : Engine S U) :
    (injectDisturbance e).link_parent = e.link_parent := by
  rcases injectDisturbance_eq e with ⟨r, n, b, h⟩
  rw [h]

theorem injectDisturbance_edges (e : Engine S U) :
    (injectDisturbance e).edges = e.edges := by
  rcases injectDisturbance_eq e with ⟨r, n, b, h⟩
  rw [h]

theorem injectDisturbance_no_change (e : Engine S U) :
    (injectDisturbance e).stat_iter_no_change = e.stat_iter_no_change := by
  rcases injectDisturbance_eq e with ⟨r, n, b, h⟩
  rw [h]

theorem injectDisturbance_collision (e : Engine S U) :
    (injectDisturbance e).stat_iter_collision = e.stat_iter_collision := by
  rcases injectDisturbance_eq e with ⟨r, n, b, h⟩
  rw [h]

theorem saveFeasible_no_change [Inhabited S] (p : Params S U C) (e : Engine S U) :
    (saveFeasible p e).stat_iter_no_change = e.stat_iter_no_change := by
  rcases saveFeasible_shape p e with ⟨a, b, c, d, f, g, h⟩
  rw [h]

theorem saveFeasible_collision [Inhabited S] (p : Params S U C) (e : Engine S U) :
    (saveFeasible p e).stat_iter_collision = e.stat_iter_collision := by
  rcases saveFeasible_shape p e with ⟨a, b, c, d, f, g, h⟩
  rw [h]

/-! ### Frame lemmas for `goalStep` and `admitStep` -/

theorem goalStep_frame [Inhabited S] (p : Params S U C) (mE : Engine S U) (res : StepRes)
    (r : Bool) :
    (goalStep p mE res r).1.witnesses = mE.witnesses ∧
    (goalStep p mE res r).1.witness_representative = mE.witness_representative ∧
    (goalStep p mE res r).1.nodes = mE.nodes ∧
    (goalStep p mE res r).1.nodes_freelist = mE.nodes_freelist ∧
    (goalStep p mE res r).1.nodes_active = mE.nodes_active ∧
    (goalStep p mE res r).1.nodes_inactive = mE.nodes_inactive ∧
    (goalStep p mE res r).1.link_parent = mE.link_parent ∧
    (goalStep p mE res r).1.edges = mE.edges ∧
    (goalStep p mE res r).1.stat_iter_no_change = mE.stat_iter_no_change ∧
    (goalStep p mE res r).1.stat_iter_collision = mE.stat_iter_collision ∧
    (goalStep p mE res r).2.1 = res := by
  unfold goalStep
  split
  · exact ⟨(saveFeasible_witnesses p _).trans rfl, (saveFeasible_wr p _).trans rfl,
      (saveFeasible_nodes p _).trans rfl, (saveFeasible_freelist p _).trans rfl,
      (saveFeasible_active p _).trans rfl, (saveFeasible_inactive p _).trans rfl,
      (saveFeasible_link_parent p _).trans rfl, (saveFeasible_edges p _).trans rfl,
      (saveFeasible_no_change p _).trans rfl, (saveFeasible_collision p _).trans rfl, rfl⟩
  · exact ⟨rfl, rfl, rfl, rfl, rfl, rfl, rfl, rfl, rfl, rfl, rfl⟩

theorem goalStep_noChange [Inhabited S] (p : Params S U C) (mE : Engine S U) (r : Bool) :
    goalStep p mE StepRes.noChange r = (mE, StepRes.noChange, false) := by
  cases r <;> rfl

theorem admitStep_frame_witnesses [Inhabited S] (p : Params S U C) (e3 : Engine S U)
    (o : StepOracle S U) (wIdx : Nat) (sp : S) (cfgB cfgA : C) (c : ℚ) (r : Bool) :
    (admitStep p e3 o wIdx sp cfgB cfgA c r).1.witnesses = e3.witnesses := by
  unfold admitStep
  repeat' split
  all_goals
    simp [pruneLoop_witnesses, insertNode_witnesses, inactivateNode]

/-- The collision-rejection outcome of `admitStep` for a representative-less
witness. -/
theorem admitStep_none_collision [Inhabited S] (p : Params S U C) (e3 : Engine S U)
    (o : StepOracle S U) (wIdx : Nat) (sp : S) (cfgB cfgA : C) (c : ℚ) (r : Bool)
    (hnr : lookupA e3.witness_representative wIdx = none)
    (hc : p.collides cfgB cfgA = true) :
    admitStep p e3 o wIdx sp cfgB cfgA c r =
      ({ e3 with stat_iter_no_change := e3.stat_iter_no_change + 1,
                 stat_iter_collision := e3.stat_iter_collision + 1 }, StepRes.noChange) := by
  unfold admitStep
  rw [hnr]
  dsimp only
  rw [if_pos hc]

/-- Fields of the engine that `stepMid` can never change. -/
theorem stepMid_frame [Inhabited S] (p : Params S U C) (e : Engine S U) (o : StepOracle S U) :
    (stepMid p e o).nodes = e.nodes ∧
    (stepMid p e o).nodes_freelist = e.nodes_freelist ∧
    (stepMid p e o).nodes_active = e.nodes_active ∧
    (stepMid p e o).nodes_inactive = e.nodes_inactive ∧
    (stepMid p e o).link_parent = e.link_parent ∧
    (stepMid p e o).edges = e.edges ∧
    (stepMid p e o).witness_representative = e.witness_representative ∧
    (stepMid p e o).stat_iter_no_change = e.stat_iter_no_change ∧
    (stepMid p e o).stat_iter_collision = e.stat_iter_collision ∧
    (p.disturbance_enabled = false →
      (stepMid p e o).witness_disturbance = e.witness_disturbance) := by
  unfold stepMid
  cases hw : o.witnessFound <;> dsimp only <;> by_cases hd : p.disturbance_enabled = true
  all_goals
    first
    | (rw [if_pos hd]
       refine ⟨?_, ?_, ?_, ?_, ?_, ?_, ?_, ?_, ?_, ?_⟩
       · simp [injectDisturbance_nodes]
       · simp [injectDisturbance_freelist]
       · simp [injectDisturbance_active]
       · simp [injectDisturbance_inactive]
       · simp [injectDisturbance_link_parent]
       · simp [injectDisturbance_edges]
       · simp [injectDisturbance_wr]
       · simp [injectDisturbance_no_change]
       · simp [injectDisturbance_collision]
       · intro hfalse
         rw [hfalse] at hd
         cases hd)
    | (rw [if_neg hd]
       exact ⟨rfl, rfl, rfl, rfl, rfl, rfl, rfl, rfl, rfl, fun _ => rfl⟩)

/-- What `stepMid` does to the witness list. -/
theorem stepMid_witnesses [Inhabited S] (p : Params S U C) (e : Engine S U)
    (o : StepOracle S U) :
    (∀ i, o.witnessFound = some i → (stepMid p e o).witnesses = e.witnesses) ∧
    (o.witnessFound = none →
      (stepMid p e o).witnesses = e.witnesses ++ [stepPropagated p e o]) := by
  constructor
  · intro i hi
    unfold stepMid
    rw [hi]
    dsimp only
    by_cases hd : p.disturbance_enabled = true
    · rw [if_pos hd, injectDisturbance_witnesses]
    · rw [if_neg hd]
  · intro hn
    unfold stepMid
    rw [hn]
    dsimp only
    by_cases hd : p.disturbance_enabled = true
    · rw [if_pos hd, injectDisturbance_witnesses]
    · rw [if_neg hd]

/-- Every iteration body only ever appends to the witness set. -/
theorem iterBody_witnesses_extend [Inhabited S] (p : Params S U C) (e : Engine S U)
    (o : StepOracle S U) :
    ∃ t : List S, (iterBody p e o).1.witnesses = e.witnesses ++ t := by
  have hbody : (iterBody p e o).1.witnesses = (stepMid p e o).witnesses := by
    unfold iterBody
    rw [(goalStep_frame p _ _ _).1, admitStep_frame_witnesses]
  cases hw : o.witnessFound with
  | some j =>
    refine ⟨[], ?_⟩
    rw [hbody, (stepMid_witnesses p e o).1 j hw, List.append_nil]
  | none =>
    refine ⟨[stepPropagated p e o], ?_⟩
    rw [hbody, (stepMid_witnesses p e o).2 hw]

/-! ### C10: a collision-rejected iteration keeps its freshly created witness -/

/-- C10: when the witness lookup created a new witness (the propagated state
was farther than `delta_s` from every existing witness, hence the new witness
has no representative) and the proposed segment collides, the iteration is
counted as no-change (both the no-change and collision counters bump, no node
is inserted, no representative changes), but the new witness remains appended
to the witness set — permanently, since iterations only append witnesses. -/
theorem collision_rejected_iteration_keeps_new_witness [Inhabited S]
    (p : Params S U C) (e : Engine S U) (o : StepOracle S U)
    (hnone : o.witnessFound = none)
    (hnorep : lookupA e.witness_representative e.witnesses.length = none)
    (hcol : p.collides (p.project_state_to_config (getNode e o.idxNearest).state)
        (p.project_state_to_config (stepPropagated p e o)) = true) :
    (iterBody p e o).1.witnesses = e.witnesses ++ [stepPropagated p e o] ∧
    (iterBody p e o).1.nodes = e.nodes ∧
    (iterBody p e o).1.witness_representative = e.witness_representative ∧
    (iterBody p e o).2.1 = StepRes.noChange ∧
    (iterBody p e o).1.stat_iter_no_change = e.stat_iter_no_change + 1 ∧
    (iterBody p e o).1.stat_iter_collision = e.stat_iter_collision + 1 ∧
    ∀ o' : StepOracle S U, ∃ t : List S,
      (iterBody p (iterBody p e o).1 o').1.witnesses =
        (e.witnesses ++ [stepPropagated p e o]) ++ t := by
  have hmid := stepMid_frame p e o
  have hwit : (stepMid p e o).witnesses = e.witnesses ++ [stepPropagated p e o] :=
    (stepMid_witnesses p e o).2 hnone
  have hidx : witnessIdxOf e o = e.witnesses.length := by
    unfold witnessIdxOf
    rw [hnone]
  have hlook : lookupA (stepMid p e o).witness_representative (witnessIdxOf e o) = none := by
    rw [hmid.2.2.2.2.2.2.1, hidx]
    exact hnorep
  have hA := admitStep_none_collision p (stepMid p e o) o (witnessIdxOf e o)
    (stepPropagated p e o) (p.project_state_to_config (getNode e o.idxNearest).state)
    (p.project_state_to_config (stepPropagated p e o))
    ((getNode e o.idxNearest).cost + o.dt) (stepReached p e o) hlook hcol
  have hres : iterBody p e o =
      ({ stepMid p e o with
          stat_iter_no_change := (stepMid p e o).stat_iter_no_change + 1,
          stat_iter_collision := (stepMid p e o).stat_iter_collision + 1 },
        StepRes.noChange, false) := by
    unfold iterBody
    dsimp only
    rw [hA]
    exact goalStep_noChange ..
  rw [hres]
  dsimp only
  refine ⟨hwit, hmid.1, hmid.2.2.2.2.2.2.1, rfl, ?_, ?_, ?_⟩
  · rw [hmid.2.2.2.2.2.2.2.1]
  · rw [hmid.2.2.2.2.2.2.2.2.1]
  · intro o'
    rcases iterBody_witnesses_extend p
      ({ stepMid p e o with
          stat_iter_no_change := (stepMid p e o).stat_iter_no_change + 1,
          stat_iter_collision := (stepMid p e o).stat_iter_collision + 1 }) o' with ⟨t, ht⟩
    refine ⟨t, ?_⟩
    rw [ht]
    dsimp only
    rw [hwit]

theorem collision_rejected_iteration_keeps_new_witness_witness :
    (iterBody pC10 (initEngine pC10) oC10).1.witnesses = [(0 : ℚ), 5] ∧
    (iterBody pC10 (initEngine pC10) oC10).2.1 = StepRes.noChange ∧
    (iterBody pC10 (initEngine pC10) oC10).1.stat_iter_collision = 1 := by
  have h := collision_rejected_iteration_keeps_new_witness pC10 (initEngine pC10) oC10
    (by decide) (by decide) (by decide)
  exact ⟨h.1.trans (by decide), h.2.2.2.1, h.2.2.2.2.2.1.trans (by decide)⟩

theorem getNode_nodes_eq [Inhabited S] {e e' : Engine S U} (h : e'.nodes = e.nodes) (i : Nat) :
    getNode e' i = getNode e i := by
  unfold getNode
  rw [h]

theorem goalStep_not_reached [Inhabited S] (p : Params S U C) (mE : Engine S U)
    (res : StepRes) : goalStep p mE res false = (mE, res, false) := by
  cases res <;> rfl

/-- In a replacement with the goal check false and disturbance off, the
admission guard forces the inserted cost strictly below the replaced
representative's cost, and the inserted node carries exactly that cost. -/
theorem admitStep_replacing_cost [Inhabited S] (p : Params S U C) (e3 : Engine S U)
    (o : StepOracle S U) (wIdx : Nat) (sp : S) (cfgB cfgA : C) (c : ℚ) (r n : Nat)
    (hd : e3.witness_disturbance = false)
    (hfl : ∀ f ∈ e3.nodes_freelist, f < e3.nodes.length)
    (hres : (admitStep p e3 o wIdx sp cfgB cfgA c false).2 = StepRes.insertedReplacing r n) :
    c < (getNode e3 r).cost ∧
    (getNode (admitStep p e3 o wIdx sp cfgB cfgA c false).1 n).cost = c := by
  unfold admitStep at hres ⊢
  cases hlook : lookupA e3.witness_representative wIdx with
  | none =>
    rw [hlook] at hres
    dsimp only at hres ⊢
    by_cases hc : p.collides cfgB cfgA = true
    · rw [if_pos hc] at hres
      simp at hres
    · rw [if_neg hc] at hres
      simp at hres
  | some repr =>
    rw [hlook] at hres
    dsimp only at hres ⊢
    split at hres
    · rename_i hguard
      by_cases hc : p.collides cfgB cfgA = true
      · rw [if_pos hc] at hres
        simp at hres
      · rw [if_neg hc] at hres
        dsimp only at hres
        rw [if_pos hguard, if_neg hc]
        dsimp only
        simp only [StepRes.insertedReplacing.injEq] at hres
        rcases hres with ⟨hr, hn⟩
        rw [← hr, ← hn]
        constructor
        · rw [hd] at hguard
          simp only [Bool.and_false, Bool.false_and, Bool.or_false, decide_eq_true_eq]
            at hguard
          exact hguard
        · have hget := (insertNode_getNew e3 o.idxNearest sp o.control c o.isPrim hfl).2
          by_cases hp : p.pruning_enabled = true
          · rw [if_pos hp]
            have hpr := pruneLoop_frame
              (insertNode e3 o.idxNearest sp o.control c o.isPrim).1.nodes.length
              (inactivateNode (insertNode e3 o.idxNearest sp o.control c o.isPrim).1 repr)
              repr
            have hcost := hpr.2.2.2.2.2.1
              (insertNode e3 o.idxNearest sp o.control c o.isPrim).2
            unfold getNode at hget ⊢
            dsimp only
            rw [hcost]
            exact hget
          · rw [if_neg hp]
            unfold getNode at hget ⊢
            dsimp only
            exact hget
    · rw [hd] at hres
      simp at hres

/-! ### C1: representative cost monotonicity -/

/-- C1 counterexample: with witness disturbance disabled, a goal-reaching
iteration replaces the root witness's representative (cost 0) by a new node of
strictly HIGHER cost 5 — the `reached` disjunct of the admission guard admits
without a cost improvement, so a representative's cost can increase. -/
theorem repr_cost_can_increase_on_goal_cex :
    pC1cex.disturbance_enabled = false ∧
    (initEngine pC1cex).witness_disturbance = false ∧
    pC1cex.ss_metric ((initEngine pC1cex).witnesses.getD 0 default)
      (stepPropagated pC1cex (initEngine pC1cex) oC1) ≤ pC1cex.delta_s ∧
    (iterBody pC1cex (initEngine pC1cex) oC1).2.1 = StepRes.insertedReplacing 0 1 ∧
    (getNode (initEngine pC1cex) 0).cost = 0 ∧
    (getNode (iterBody pC1cex (initEngine pC1cex) oC1).1 1).cost = 5 := by
  refine ⟨rfl, rfl, by decide, by decide, by decide, by decide⟩

/-- C1 (amended): with witness disturbance disabled, every replacement of a
witness representative by an iteration whose goal check failed installs a node
of strictly lower cumulative cost than the replaced representative; only a
goal-reaching insertion may replace a representative without a cost decrease
(see `repr_cost_can_increase_on_goal_cex`). -/
theorem repr_replacement_lowers_cost_when_not_reached [Inhabited S] (p : Params S U C)
    (e : Engine S U) (o : StepOracle S U) (r n : Nat)
    (hde : p.disturbance_enabled = false)
    (hdw : e.witness_disturbance = false)
    (hnr : stepReached p e o = false)
    (hfl : ∀ f ∈ e.nodes_freelist, f < e.nodes.length)
    (hres : (iterBody p e o).2.1 = StepRes.insertedReplacing r n) :
    (getNode (iterBody p e o).1 n).cost < (getNode e r).cost := by
  have hmid := stepMid_frame p e o
  have hdw3 : (stepMid p e o).witness_disturbance = false :=
    (hmid.2.2.2.2.2.2.2.2.2 hde).trans hdw
  have hfl3 : ∀ f ∈ (stepMid p e o).nodes_freelist, f < (stepMid p e o).nodes.length := by
    rw [hmid.2.1, hmid.1]
    exact hfl
  have hb : iterBody p e o =
      ((admitStep p (stepMid p e o) o (witnessIdxOf e o) (stepPropagated p e o)
        (p.project_state_to_config (getNode e o.idxNearest).state)
        (p.project_state_to_config (stepPropagated p e o))
        ((getNode e o.idxNearest).cost + o.dt) false).1,
       (admitStep p (stepMid p e o) o (witnessIdxOf e o) (stepPropagated p e o)
        (p.project_state_to_config (getNode e o.idxNearest).state)
        (p.project_state_to_config (stepPropagated p e o))
        ((getNode e o.idxNearest).cost + o.dt) false).2, false) := by
    unfold iterBody
    dsimp only
    rw [hnr]
    exact goalStep_not_reached ..
  rw [hb] at hres ⊢
  dsimp only at hres ⊢
  have hrep := admitStep_replacing_cost p (stepMid p e o) o (witnessIdxOf e o)
    (stepPropagated p e o)
    (p.project_state_to_config (getNode e o.idxNearest).state)
    (p.project_state_to_config (stepPropagated p e o))
    ((getNode e o.idxNearest).cost + o.dt) r n hdw3 hfl3 hres
  rw [hrep.2]
  calc (getNode e o.idxNearest).cost + o.dt
      < (getNode (stepMid p e o) r).cost := hrep.1
    _ = (getNode e r).cost := by rw [getNode_nodes_eq hmid.1]

theorem repr_replacement_lowers_cost_when_not_reached_witness :
    (iterBody pQ eC1 oC1b).2.1 = StepRes.insertedReplacing 1 2 ∧
    (getNode (iterBody pQ eC1 oC1b).1 2).cost < (getNode eC1 1).cost := by
  have h2 : (iterBody pQ eC1 oC1b).2.1 = StepRes.insertedReplacing 1 2 := by decide
  exact ⟨h2, repr_replacement_lowers_cost_when_not_reached pQ eC1 oC1b 1 2 rfl rfl
    (by decide) (by decide) h2⟩

/-! ### Sorting lemmas for the stable descending fitness sort -/

theorem insStable_perm {α : Type} (le : α → α → Bool) (x : α) (l : List α) :
    (insStable le x l).Perm (x :: l) := by
  induction l with
  | nil => exact List.Perm.refl _
  | cons y ys ih =>
    unfold insStable
    by_cases h : le x y = true
    · rw [if_pos h]
    · rw [if_neg h]
      exact (List.Perm.cons y ih).trans (List.Perm.swap x y ys)

theorem sortStable_perm {α : Type} (le : α → α → Bool) (l : List α) :
    (sortStable le l).Perm l := by
  induction l with
  | nil => exact List.Perm.refl _
  | cons x xs ih =>
    exact (insStable_perm le x (sortStable le xs)).trans (List.Perm.cons x ih)

theorem sortStable_mem {α : Type} (le : α → α → Bool) (l : List α) (a : α) :
    a ∈ sortStable le l ↔ a ∈ l :=
  (sortStable_perm le l).mem_iff

theorem insStable_pairwise {α : Type} (le : α → α → Bool)
    (htot : ∀ a b, le a b = true ∨ le b a = true)
    (htrans : ∀ a b c, le a b = true → le b c = true → le a c = true)
    (x : α) (l : List α) (hl : List.Pairwise (fun a b => le a b = true) l) :
    List.Pairwise (fun a b => le a b = true) (insStable le x l) := by
  induction l with
  | nil => exact List.Pairwise.cons (by intro b hb; cases hb) List.Pairwise.nil
  | cons y ys ih =>
    rcases List.pairwise_cons.mp hl with ⟨hy, hys⟩
    unfold insStable
    by_cases h : le x y = true
    · rw [if_pos h]
      refine List.Pairwise.cons ?_ hl
      intro b hb
      rcases List.mem_cons.mp hb with hb | hb
      · rw [hb]
        exact h
      · exact htrans x y b h (hy b hb)
    · rw [if_neg h]
      refine List.Pairwise.cons ?_ (ih hys)
      intro b hb
      have hb' : b ∈ x :: ys := (insStable_perm le x ys).mem_iff.mp hb
      rcases List.mem_cons.mp hb' with hb' | hb'
      · rw [hb']
        rcases htot x y with hxy | hyx
        · exact absurd hxy h
        · exact hyx
      · exact hy b hb'

theorem sortStable_pairwise {α : Type} (le : α → α → Bool)
    (htot : ∀ a b, le a b = true ∨ le b a = true)
    (htrans : ∀ a b c, le a b = true → le b c = true → le a c = true)
    (l : List α) :
    List.Pairwise (fun a b => le a b = true) (sortStable le l) := by
  induction l with
  | nil => exact List.Pairwise.nil
  | cons x xs ih => exact insStable_pairwise le htot htrans x (sortStable le xs) ih

theorem fitDesc_total (a b : Nat × ℚ) : fitDesc a b = true ∨ fitDesc b a = true := by
  unfold fitDesc
  rcases le_total b.2 a.2 with h | h
  · exact Or.inl (decide_eq_true h)
  · exact Or.inr (decide_eq_true h)

theorem fitDesc_trans (a b c : Nat × ℚ) (h1 : fitDesc a b = true) (h2 : fitDesc b c = true) :
    fitDesc a c = true := by
  unfold fitDesc at h1 h2 ⊢
  exact decide_eq_true (le_trans (of_decide_eq_true h2) (of_decide_eq_true h1))

/-- The sorted filtered list is sorted in decreasing fitness order. -/
theorem impSorted_sorted (e : Engine S U) :
    List.Sorted (fun a b : Nat × ℚ => b.2 ≤ a.2) (impSorted e) := by
  have h := sortStable_pairwise fitDesc fitDesc_total fitDesc_trans (impFiltered e)
  unfold impSorted
  refine h.imp ?_
  intro a b hab
  exact of_decide_eq_true hab

/-- Every filtered buffer entry has fitness strictly below the current gamma. -/
theorem impFiltered_lt_gamma (e : Engine S U) (x : Nat × ℚ) (hx : x ∈ impFiltered e) :
    ((x.2 : ℚ) : WithTop ℚ) < e.importance_sample_gamma := by
  unfold impFiltered at hx
  have := (List.mem_filter.mp hx).2
  exact of_decide_eq_true this

theorem genMixtureProb_gamma (e : Engine S U) :
    (genMixtureProb e).importance_sample_gamma = e.importance_sample_gamma := rfl

/-- When the importance update changes `gamma`, the new value is the fitness
of a filtered entry, hence strictly below the old value. -/
theorem importanceUpdate_gamma_lt [Inhabited S] (p : Params S U C) (e : Engine S U)
    (h : (importanceUpdate p e).importance_sample_gamma ≠ e.importance_sample_gamma) :
    (importanceUpdate p e).importance_sample_gamma < e.importance_sample_gamma := by
  have hsel : ∀ hlt : impIdxSel e < (impSorted e).length,
      (((impSorted e).getD (impIdxSel e) (0, 0)).2 : WithTop ℚ) <
        e.importance_sample_gamma := by
    intro hlt
    have hmem : (impSorted e).getD (impIdxSel e) (0, 0) ∈ impSorted e := by
      rw [List.getD_eq_getElem?_getD, List.getElem?_eq_getElem hlt]
      exact List.getElem_mem hlt
    exact impFiltered_lt_gamma e _ ((sortStable_mem fitDesc (impFiltered e) _).mp hmem)
  unfold importanceUpdate at h ⊢
  dsimp only at h ⊢
  by_cases h1 : 0 < (impSorted e).length
  · rw [if_pos h1] at h ⊢
    by_cases h2 : (impSorted e).length ≤ impIdxSel e
    · rw [if_pos h2] at h
      exact absurd rfl h
    · rw [if_neg h2] at h ⊢
      have hlt : impIdxSel e < (impSorted e).length := Nat.lt_of_not_le h2
      by_cases h3 : 0 < (impEliteIdxs e).length
      · rw [if_pos h3] at h ⊢
        exact hsel hlt
      · rw [if_neg h3] at h ⊢
        exact hsel hlt
  · rw [if_neg h1] at h
    exact absurd rfl h

/-! ### C5: gamma monotonicity -/

theorem pushSample_gamma [Inhabited S] (e : Engine S U) :
    (pushSample e).importance_sample_gamma = e.importance_sample_gamma := rfl

/-- C5: `gamma` is non-increasing over a run — every call of
`save_feasible_trajectory_state_space` that assigns a new value to `gamma`
(and those calls are the only writers of `gamma`) assigns a strictly smaller
value, because the new value is the fitness of a buffer entry that passed the
`fitness < gamma` filter. -/
theorem gamma_strictly_decreases_when_changed [Inhabited S] (p : Params S U C)
    (e : Engine S U)
    (h : (saveFeasible p e).importance_sample_gamma ≠ e.importance_sample_gamma) :
    (saveFeasible p e).importance_sample_gamma < e.importance_sample_gamma := by
  unfold saveFeasible at h ⊢
  dsimp only at h ⊢
  by_cases h1 : (pushSample e).sampling_mixture.isEmpty = true
  · rw [if_pos h1] at h
    exact absurd rfl h
  · rw [if_neg h1] at h ⊢
    by_cases h2 : 20 ≤ (pushSample e).importance_samples.length
    · rw [if_pos h2] at h ⊢
      exact importanceUpdate_gamma_lt p (pushSample e) h
    · rw [if_neg h2] at h
      exact absurd rfl h

theorem gamma_strictly_decreases_when_changed_witness :
    (saveFeasible pQ eC5).importance_sample_gamma ≠ eC5.importance_sample_gamma ∧
    (saveFeasible pQ eC5).importance_sample_gamma < eC5.importance_sample_gamma :=
  ⟨by decide, gamma_strictly_decreases_when_changed pQ eC5 (by decide)⟩

/-! ### C6: the importance-sampling update step -/

theorem gaussUpdate_vicinity [Inhabited S] (p : Params S U C) (g : Gaussian S)
    (samples : List S) : (gaussUpdate p g samples).vicinity_dist = g.vicinity_dist := by
  unfold gaussUpdate
  dsimp only
  split <;> rfl

theorem foldl_count {α : Type} (l : List α) (n : Nat) :
    l.foldl (fun acc _ => acc + 1) n = n + l.length := by
  induction l generalizing n with
  | nil => simp
  | cons x xs ih =>
    simp only [List.foldl, ih, List.length_cons]
    omega

theorem impSorted_length_pos (e : Engine S U) (hf : impFiltered e ≠ []) :
    0 < (impSorted e).length := by
  unfold impSorted
  rw [(sortStable_perm fitDesc (impFiltered e)).length_eq]
  exact List.length_pos.mpr hf

/-- The `idx_sel >= filtered.len()` branch of the source is dead code: the
selected quantile index is always in range. -/
theorem impIdxSel_lt (e : Engine S U) (hf : impFiltered e ≠ []) :
    impIdxSel e < (impSorted e).length :=
  Nat.div_lt_self (impSorted_length_pos e hf) (by omega)

theorem importanceUpdate_gamma_sel [Inhabited S] (p : Params S U C) (e : Engine S U)
    (hf : impFiltered e ≠ []) :
    (importanceUpdate p e).importance_sample_gamma =
      ((((impSorted e).getD (impIdxSel e) (0, 0)).2 : ℚ) : WithTop ℚ) := by
  have h1 : 0 < (impSorted e).length := impSorted_length_pos e hf
  have h2 : ¬ (impSorted e).length ≤ impIdxSel e := Nat.not_le.mpr (impIdxSel_lt e hf)
  unfold importanceUpdate
  dsimp only
  rw [if_pos h1, if_neg h2]
  by_cases h3 : 0 < (impEliteIdxs e).length
  · rw [if_pos h3]
    rfl
  · rw [if_neg h3]

theorem importanceUpdate_elite_mixture [Inhabited S] (p : Params S U C) (e : Engine S U)
    (hf : impFiltered e ≠ []) (he : impEliteIdxs e ≠ []) :
    (importanceUpdate p e).sampling_mixture =
      (impEliteStates e).map
        (fun x => gaussUpdate p (Gaussian.start x p.delta_s) (impEliteStates e)) ∧
    (∀ g ∈ (importanceUpdate p e).sampling_mixture, g.vicinity_dist = p.delta_s) ∧
    (importanceUpdate p e).sampling_mixture_prob.length =
      (importanceUpdate p e).sampling_mixture.length ∧
    (∀ pr ∈ (importanceUpdate p e).sampling_mixture_prob,
      pr.2 = (1 : ℚ) / ((importanceUpdate p e).sampling_mixture.length : ℚ)) := by
  have h1 : 0 < (impSorted e).length := impSorted_length_pos e hf
  have h2 : ¬ (impSorted e).length ≤ impIdxSel e := Nat.not_le.mpr (impIdxSel_lt e hf)
  have h3 : 0 < (impEliteIdxs e).length := List.length_pos.mpr he
  have hmx : (importanceUpdate p e).sampling_mixture =
      ((impEliteStates e).map (fun x => Gaussian.start x p.delta_s)).map
        (fun g => gaussUpdate p g (impEliteStates e)) := by
    unfold importanceUpdate genMixtureProb
    dsimp only
    rw [if_pos h1, if_neg h2, if_pos h3]
  have hpr : (importanceUpdate p e).sampling_mixture_prob =
      ((importanceUpdate p e).sampling_mixture).enum.map
        (fun iv => (iv.1, (1 : ℚ) /
          ((((importanceUpdate p e).sampling_mixture).foldl (fun acc _ => acc + 1) 0 : Nat) : ℚ))) := by
    rw [hmx]
    unfold importanceUpdate genMixtureProb
    dsimp only
    rw [if_pos h1, if_neg h2, if_pos h3]
  refine ⟨?_, ?_, ?_, ?_⟩
  · rw [hmx, List.map_map]
    rfl
  · intro g hg
    rw [hmx, List.map_map] at hg
    rcases List.mem_map.mp hg with ⟨x, hx, hgx⟩
    rw [← hgx]
    exact gaussUpdate_vicinity p (Gaussian.start x p.delta_s) (impEliteStates e)
  · rw [hpr]
    simp
  · intro pr hpr2
    rw [hpr] at hpr2
    rcases List.mem_map.mp hpr2 with ⟨iv, hiv, hpr3⟩
    rw [← hpr3]
    rw [foldl_count]
    simp

theorem importanceUpdate_empty_elite [Inhabited S] (p : Params S U C) (e : Engine S U)
    (hf : impFiltered e ≠ []) (he : impEliteIdxs e = []) :
    (importanceUpdate p e).sampling_mixture = e.sampling_mixture ∧
    (importanceUpdate p e).sampling_mixture_prob = e.sampling_mixture_prob := by
  have h1 : 0 < (impSorted e).length := impSorted_length_pos e hf
  have h2 : ¬ (impSorted e).length ≤ impIdxSel e := Nat.not_le.mpr (impIdxSel_lt e hf)
  have h3 : ¬ 0 < (impEliteIdxs e).length := by
    rw [he]
    simp
  unfold importanceUpdate
  dsimp only
  rw [if_pos h1, if_neg h2, if_neg h3]
  exact ⟨rfl, rfl⟩

theorem importanceUpdate_clears_buffer [Inhabited S] (p : Params S U C) (e : Engine S U) :
    (importanceUpdate p e).importance_samples = [] := by
  rcases importanceUpdate_shape p e with ⟨oi, g, mix, prob, h⟩
  rw [h]

/-- C6 counterexample: a goal is reached with 20 buffered entries and a
non-empty mixture, the update sets `gamma` and clears the buffer, BUT — the
elite set being empty — the mixture is NOT rebuilt with one Gaussian per elite
state and the probability is NOT rebuilt as uniform: both keep their previous
values (`[Gaussian.start 9 1]` is not a mixture over the empty elite set). -/
theorem importance_update_empty_elite_keeps_mixture_cex :
    eC6.sampling_mixture ≠ [] ∧
    20 ≤ (pushSample eC6).importance_samples.length ∧
    impEliteIdxs (pushSample eC6) = [] ∧
    (saveFeasible pQ eC6).importance_sample_gamma = ((3 : ℚ) : WithTop ℚ) ∧
    (saveFeasible pQ eC6).sampling_mixture = [Gaussian.start 9 1] ∧
    (saveFeasible pQ eC6).sampling_mixture_prob = [(0, 1)] ∧
    (saveFeasible pQ eC6).importance_samples = [] := by
  decide

/-- C6 (amended): when a goal is reached with at least 20 buffered entries and
a non-empty mixture, `save_feasible_trajectory_state_space` runs the
importance update: it sorts the `gamma`-filtered entries in decreasing fitness
order, sets `gamma` to the fitness at index `⌊0.1·|filtered|⌋` when the
filtered set is non-empty, rebuilds the mixture (one Gaussian per elite state,
sigma `delta_s_orig`, mean moved by `update_params`) and the uniform component
probability ONLY when the elite set (the entries after that index) is
non-empty — otherwise the mixture and the probabilities keep their previous
values — and clears the buffer in every case. -/
theorem importance_update_step_spec [Inhabited S] (p : Params S U C) (e : Engine S U)
    (hmix : e.sampling_mixture ≠ [])
    (hlen : 20 ≤ (pushSample e).importance_samples.length) :
    saveFeasible p e = importanceUpdate p (pushSample e) ∧
    ∀ e' : Engine S U,
      List.Sorted (fun a b : Nat × ℚ => b.2 ≤ a.2) (impSorted e') ∧
      (impSorted e').Perm (impFiltered e') ∧
      (∀ x ∈ impFiltered e', ((x.2 : ℚ) : WithTop ℚ) < e'.importance_sample_gamma) ∧
      impIdxSel e' = (impSorted e').length / 10 ∧
      (importanceUpdate p e').importance_samples = [] ∧
      (impFiltered e' ≠ [] →
        (importanceUpdate p e').importance_sample_gamma =
          ((((impSorted e').getD (impIdxSel e') (0, 0)).2 : ℚ) : WithTop ℚ)) ∧
      (impFiltered e' ≠ [] → impEliteIdxs e' ≠ [] →
        (importanceUpdate p e').sampling_mixture =
          (impEliteStates e').map
            (fun x => gaussUpdate p (Gaussian.start x p.delta_s) (impEliteStates e')) ∧
        (∀ g ∈ (importanceUpdate p e').sampling_mixture, g.vicinity_dist = p.delta_s) ∧
        (importanceUpdate p e').sampling_mixture_prob.length =
          (importanceUpdate p e').sampling_mixture.length ∧
        (∀ pr ∈ (importanceUpdate p e').sampling_mixture_prob,
          pr.2 = (1 : ℚ) / ((importanceUpdate p e').sampling_mixture.length : ℚ))) ∧
      (impFiltered e' ≠ [] → impEliteIdxs e' = [] →
        (importanceUpdate p e').sampling_mixture = e'.sampling_mixture ∧
        (importanceUpdate p e').sampling_mixture_prob = e'.sampling_mixture_prob) := by
  constructor
  · have h1 : ¬ (pushSample e).sampling_mixture.isEmpty = true := by
      have : (pushSample e).sampling_mixture = e.sampling_mixture := rfl
      rw [this]
      simp [List.isEmpty_iff, hmix]
    unfold saveFeasible
    dsimp only
    rw [if_neg h1, if_pos hlen]
  · intro e'
    exact ⟨impSorted_sorted e', sortStable_perm fitDesc (impFiltered e'),
      fun x hx => impFiltered_lt_gamma e' x hx, rfl,
      importanceUpdate_clears_buffer p e',
      fun hf => importanceUpdate_gamma_sel p e' hf,
      fun hf he => importanceUpdate_elite_mixture p e' hf he,
      fun hf he => importanceUpdate_empty_elite p e' hf he⟩

theorem importance_update_step_spec_witness :
    eC5.sampling_mixture ≠ [] ∧
    20 ≤ (pushSample eC5).importance_samples.length ∧
    saveFeasible pQ eC5 = importanceUpdate pQ (pushSample eC5) :=
  ⟨by decide, by decide, (importance_update_step_spec pQ eC5 (by decide) (by decide)).1⟩

/-! ### C9: mixture bootstrap on the first reached goal -/

theorem chainStates_ne_nil [Inhabited S] (fuel : Nat) (e : Engine S U) (idx : Nat)
    (h : 0 < fuel) : chainStates fuel e idx ≠ [] := by
  cases fuel with
  | zero => omega
  | succ n =>
    unfold chainStates
    exact List.cons_ne_nil _ _

theorem genMixtureProb_mixture (e : Engine S U) :
    (genMixtureProb e).sampling_mixture = e.sampling_mixture := rfl

theorem genMixtureProb_samples (e : Engine S U) :
    (genMixtureProb e).importance_samples = e.importance_samples := rfl

theorem genMixtureProb_prob_length (e : Engine S U) :
    (genMixtureProb e).sampling_mixture_prob.length = e.sampling_mixture.length := by
  unfold genMixtureProb
  dsimp only
  rw [List.length_map, List.enum_length]

theorem genMixtureProb_prob_val (e : Engine S U) (pr : Nat × ℚ)
    (hpr : pr ∈ (genMixtureProb e).sampling_mixture_prob) :
    pr.2 = (1 : ℚ) / (e.sampling_mixture.length : ℚ) := by
  unfold genMixtureProb at hpr
  dsimp only at hpr
  rw [List.mem_map] at hpr
  obtain ⟨iv, _, hiv⟩ := hpr
  rw [← hiv]
  dsimp only
  rw [foldl_count]
  simp

theorem pushSample_traj [Inhabited S] (e : Engine S U) (i : Nat)
    (hreach : e.idx_reached = some i) :
    (pushSample e).saved_feasible_traj = (chainStates chainFuel e i).reverse := by
  unfold pushSample
  dsimp only
  rw [hreach]

theorem pushSample_samples [Inhabited S] (e : Engine S U) (i : Nat)
    (hreach : e.idx_reached = some i) :
    (pushSample e).importance_samples =
      e.importance_samples ++ [((getNode e i).cost, (chainStates chainFuel e i).reverse)] := by
  unfold pushSample
  dsimp only
  rw [hreach]

theorem saveFeasible_bootstrap [Inhabited S] (p : Params S U C) (e : Engine S U)
    (hmix : e.sampling_mixture = []) :
    saveFeasible p e =
      genMixtureProb { pushSample e with
        sampling_mixture :=
          (pushSample e).saved_feasible_traj.map (fun x =>
            gaussUpdate p (Gaussian.start x p.delta_s) (pushSample e).saved_feasible_traj) } := by
  have h1 : (pushSample e).sampling_mixture.isEmpty = true := by
    have h2 : (pushSample e).sampling_mixture = e.sampling_mixture := rfl
    rw [h2, hmix]
    rfl
  unfold saveFeasible
  dsimp only
  rw [if_pos h1]

/-- C9: the first time a goal is reached while the mixture is still empty,
`save_feasible_trajectory_state_space` bootstraps the mixture immediately (no
20-sample wait): one Gaussian per state of the reached trajectory with sigma
`delta_s_orig` and mean nudged by `update_params`, a uniform component
probability, while the first `(fitness, trajectory)` entry stays in the
importance buffer; and since the probability map is now non-empty, every later
seed state is drawn from the mixture sampler instead of `ss_sampler`. -/
theorem mixture_bootstrap_on_first_goal [Inhabited S] (p : Params S U C) (e : Engine S U)
    (i : Nat) (hmix : e.sampling_mixture = []) (hreach : e.idx_reached = some i) :
    (saveFeasible p e).sampling_mixture =
      ((chainStates chainFuel e i).reverse).map (fun x =>
        gaussUpdate p (Gaussian.start x p.delta_s) (chainStates chainFuel e i).reverse) ∧
    (∀ g ∈ (saveFeasible p e).sampling_mixture, g.vicinity_dist = p.delta_s) ∧
    (saveFeasible p e).sampling_mixture_prob.length =
      (saveFeasible p e).sampling_mixture.length ∧
    (∀ pr ∈ (saveFeasible p e).sampling_mixture_prob,
      pr.2 = (1 : ℚ) / (((saveFeasible p e).sampling_mixture.length : ℚ))) ∧
    (saveFeasible p e).importance_samples =
      e.importance_samples ++ [((getNode e i).cost, (chainStates chainFuel e i).reverse)] ∧
    (saveFeasible p e).sampling_mixture_prob ≠ [] ∧
    (∀ (e' : Engine S U) (o : StepOracle S U),
      e'.sampling_mixture_prob ≠ [] → seedOf e' o = o.seedMixture) := by
  have htraj := pushSample_traj e i hreach
  have hsave := saveFeasible_bootstrap p e hmix
  have hm : (saveFeasible p e).sampling_mixture =
      ((chainStates chainFuel e i).reverse).map (fun x =>
        gaussUpdate p (Gaussian.start x p.delta_s) (chainStates chainFuel e i).reverse) := by
    rw [hsave, genMixtureProb_mixture]
    dsimp only
    rw [htraj]
  refine ⟨hm, ?_, ?_, ?_, ?_, ?_, ?_⟩
  · intro g hg
    rw [hm, List.mem_map] at hg
    obtain ⟨x, _, hx⟩ := hg
    rw [← hx, gaussUpdate_vicinity]
    rfl
  · rw [hsave, genMixtureProb_prob_length, genMixtureProb_mixture]
  · intro pr hpr
    rw [hsave] at hpr
    rw [hsave, genMixtureProb_mixture]
    exact genMixtureProb_prob_val _ pr hpr
  · rw [hsave, genMixtureProb_samples]
    have hs : (pushSample e).importance_samples =
        e.importance_samples ++ [((getNode e i).cost, (chainStates chainFuel e i).reverse)] :=
      pushSample_samples e i hreach
    exact hs
  · have hlen : 0 < (saveFeasible p e).sampling_mixture_prob.length := by
      rw [hsave, genMixtureProb_prob_length]
      dsimp only
      rw [htraj, List.length_map, List.length_reverse]
      exact List.length_pos.mpr (chainStates_ne_nil chainFuel e i (by decide))
    exact List.ne_nil_of_length_pos hlen
  · intro e' o h
    unfold seedOf
    rw [if_neg (by simp [List.isEmpty_iff, h])]

theorem mixture_bootstrap_on_first_goal_witness :
    eC9.sampling_mixture = [] ∧ eC9.idx_reached = some 0 ∧
    (saveFeasible pQ eC9).sampling_mixture_prob ≠ [] :=
  ⟨rfl, rfl, (mixture_bootstrap_on_first_goal pQ eC9 0 rfl rfl).2.2.2.2.2.1⟩

/-! ### C7: the prune walk -/

theorem pruneVisited_fst [Inhabited S] (fuel : Nat) :
    ∀ (e : Engine S U) (np : Nat), (pruneVisited fuel e np).1 = pruneLoop fuel e np := by
  induction fuel with
  | zero => intro e np; rfl
  | succ f ih =>
    intro e np
    unfold pruneVisited pruneLoop
    dsimp only
    by_cases hcond : (getNode e np).children = ∅ ∧ np ∉ e.nodes_active
    · rw [if_pos hcond, if_pos hcond]
      cases hpar : lookupA e.link_parent np with
      | none => rfl
      | some par =>
        dsimp only
        exact ih _ par
    · rw [if_neg hcond, if_neg hcond]

theorem pruneLoop_fuel_stable [Inhabited S] (dm : Nat → Nat) :
    ∀ (g₁ g₂ : Nat) (e : Engine S U) (np : Nat),
      (∀ c q, lookupA e.link_parent c = some q → dm q < dm c) →
      dm np < g₁ → dm np < g₂ → pruneLoop g₁ e np = pruneLoop g₂ e np := by
  intro g₁
  induction g₁ with
  | zero => intro g₂ e np _ h1 _; omega
  | succ f ih =>
    intro g₂ e np hdm h1 h2
    cases g₂ with
    | zero => omega
    | succ h =>
      unfold pruneLoop
      dsimp only
      by_cases hcond : (getNode e np).children = ∅ ∧ np ∉ e.nodes_active
      · rw [if_pos hcond, if_pos hcond]
        cases hpar : lookupA e.link_parent np with
        | none => rfl
        | some par =>
          dsimp only
          apply ih
          · intro c q hq
            exact hdm c q (lookupA_eraseA_imp hq)
          · exact Nat.lt_of_lt_of_le (hdm np par hpar) (Nat.lt_succ_iff.mp h1)
          · exact Nat.lt_of_lt_of_le (hdm np par hpar) (Nat.lt_succ_iff.mp h2)
      · rw [if_neg hcond, if_neg hcond]

theorem pruneVisited_inactive_subset [Inhabited S] (fuel : Nat) :
    ∀ (e : Engine S U) (np v : Nat),
      v ∈ (pruneVisited fuel e np).1.nodes_inactive → v ∈ e.nodes_inactive := by
  induction fuel with
  | zero => intro e np v h; exact h
  | succ f ih =>
    intro e np v h
    unfold pruneVisited at h
    dsimp only at h
    by_cases hcond : (getNode e np).children = ∅ ∧ np ∉ e.nodes_active
    · rw [if_pos hcond] at h
      cases hpar : lookupA e.link_parent np with
      | none =>
        rw [hpar] at h
        dsimp only at h
        exact Finset.mem_of_mem_erase h
      | some par =>
        rw [hpar] at h
        dsimp only at h
        exact Finset.mem_of_mem_erase (ih _ par v h)
    · rw [if_neg hcond] at h
      exact h

theorem pruneVisited_no_dead [Inhabited S] (fuel : Nat) :
    ∀ (e : Engine S U) (np : Nat),
      (∀ w, w ∈ e.nodes_active → w ∉ e.nodes_inactive) →
      ∀ v ∈ (pruneVisited fuel e np).2,
        ¬(v ∈ (pruneVisited fuel e np).1.nodes_inactive ∧
          (getNode (pruneVisited fuel e np).1 v).children = ∅) := by
  induction fuel with
  | zero =>
    intro e np _ v hv
    simp [pruneVisited] at hv
  | succ f ih =>
    intro e np hdisj v hv
    unfold pruneVisited at hv ⊢
    dsimp only at hv ⊢
    by_cases hcond : (getNode e np).children = ∅ ∧ np ∉ e.nodes_active
    · rw [if_pos hcond] at hv ⊢
      cases hpar : lookupA e.link_parent np with
      | none =>
        rw [hpar] at hv
        dsimp only at hv ⊢
        have hv0 : v = np := by simpa using hv
        subst hv0
        rintro ⟨hmem, _⟩
        exact absurd hmem (Finset.not_mem_erase v e.nodes_inactive)
      | some par =>
        rw [hpar] at hv
        dsimp only at hv ⊢
        rcases List.mem_cons.mp hv with hv0 | hvtail
        · subst hv0
          rintro ⟨hmem, _⟩
          have hsub := pruneVisited_inactive_subset f _ par v hmem
          exact absurd hsub (Finset.not_mem_erase v e.nodes_inactive)
        · refine ih _ par ?_ v hvtail
          intro w hw hmem
          exact hdisj w hw (Finset.mem_of_mem_erase hmem)
    · rw [if_neg hcond] at hv ⊢
      have hv0 : v = np := by simpa using hv
      subst hv0
      rintro ⟨hmem, hch⟩
      rcases Decidable.not_and_iff_or_not.mp hcond with hne | hact
      · exact hne hch
      · exact hdisj v (Decidable.not_not.mp hact) hmem

/-- C7: `prune_nodes` walks up the parent chain: while the current node is
childless and not active it is removed from the inactive set and the NN index,
pushed on the freelist, and its parent link, parent edge and membership in the
parent's child set are deleted before the walk moves to the parent
(`pruneLoop`/`pruneVisited` are the direct translation of that loop); the walk
terminates — given any depth measure that decreases along parent links, the
result is the same for every fuel bound larger than the start node's depth —
and afterwards no node visited by the walk is still both inactive and
childless. -/
theorem prune_nodes_walk_spec [Inhabited S] (e : Engine S U) (np : Nat) (dm : Nat → Nat)
    (hdm : ∀ c q, lookupA e.link_parent c = some q → dm q < dm c)
    (hdisj : ∀ w, w ∈ e.nodes_active → w ∉ e.nodes_inactive) :
    (∀ g, (pruneVisited g e np).1 = pruneLoop g e np) ∧
    (∀ g₁ g₂, dm np < g₁ → dm np < g₂ → pruneLoop g₁ e np = pruneLoop g₂ e np) ∧
    (∀ g, ∀ v ∈ (pruneVisited g e np).2,
      ¬(v ∈ (pruneVisited g e np).1.nodes_inactive ∧
        (getNode (pruneVisited g e np).1 v).children = ∅)) :=
  ⟨fun g => pruneVisited_fst g e np,
   fun g₁ g₂ h1 h2 => pruneLoop_fuel_stable dm g₁ g₂ e np hdm h1 h2,
   fun g v hv => pruneVisited_no_dead g e np hdisj v hv⟩

theorem prune_nodes_walk_spec_witness :
    (∀ c q, lookupA eC7.link_parent c = some q → q < c) ∧
    (∀ w, w ∈ eC7.nodes_active → w ∉ eC7.nodes_inactive) ∧
    pruneLoop 3 eC7 2 = pruneLoop 4 eC7 2 := by
  have hdm : ∀ c q, lookupA eC7.link_parent c = some q → q < c := by
    intro c q h
    have hmem := lookupA_mem h
    have hcase : (c, q) = (2, 1) ∨ (c, q) = (1, 0) := by
      simpa [eC7] using hmem
    rcases hcase with h' | h' <;> (injection h' with h1 h2; omega)
  have hdisj : ∀ w, w ∈ eC7.nodes_active → w ∉ eC7.nodes_inactive := by
    intro w hw
    have hw0 : w = 0 := by simpa [eC7] using hw
    subst hw0
    decide
  exact ⟨hdm, hdisj,
    (prune_nodes_walk_spec eC7 2 (fun n => n) hdm hdisj).2.1 3 4 (by decide) (by decide)⟩

/-! ### C2/C4: structural well-formedness of reachable engines -/

theorem getNode_modifyChildren_children_self [Inhabited S] (nodes : List (Node S))
    (i : Nat) (f : Finset Nat → Finset Nat) (h : i < nodes.length) :
    ((modifyChildren nodes i f).getD i default).children =
      f ((nodes.getD i default).children) := by
  unfold modifyChildren
  rw [List.getD_eq_getElem?_getD, List.getD_eq_getElem?_getD, List.getElem?_modify]
  rw [List.getElem?_eq_getElem h]
  simp

theorem getNode_modifyChildren_children_ne [Inhabited S] (nodes : List (Node S))
    (i j : Nat) (f : Finset Nat → Finset Nat) (h : i ≠ j) :
    ((modifyChildren nodes i f).getD j default).children =
      (nodes.getD j default).children := by
  unfold modifyChildren
  rw [getD_modify_ne _ _ _ _ _ h]

theorem lookupE_cons {β : Type} (a : Nat × Nat) (b : β) (m : List ((Nat × Nat) × β))
    (k : Nat × Nat) :
    lookupE ((a, b) :: m) k = if a = k then some b else lookupE m k := by
  unfold lookupE
  by_cases h : a = k <;> simp [List.find?, h]

theorem lookupE_nil {β : Type} (k : Nat × Nat) :
    lookupE ([] : List ((Nat × Nat) × β)) k = none := rfl

theorem lookupE_eraseE {β : Type} (m : List ((Nat × Nat) × β)) (k k' : Nat × Nat) :
    lookupE (eraseE m k) k' = if k' = k then none else lookupE m k' := by
  induction m with
  | nil => simp [eraseE, lookupE_nil]
  | cons q m ih =>
    cases q with
    | mk a b =>
      have hfc : eraseE ((a, b) :: m) k =
          if a ≠ k then (a, b) :: eraseE m k else eraseE m k := by
        simp only [eraseE, List.filter_cons]
        by_cases hak : a = k <;> simp [hak]
      by_cases hak : a = k
      · rw [hfc, if_neg (by simp [hak])]
        rw [ih]
        by_cases hk : k' = k
        · simp [hk]
        · rw [if_neg hk, if_neg hk, lookupE_cons,
             if_neg (show ¬ a = k' from fun h => hk (by rw [← h]; exact hak))]
      · rw [hfc, if_pos hak, lookupE_cons, lookupE_cons, ih]
        by_cases hak' : a = k'
        · rw [if_pos hak', if_neg (show ¬ k' = k from fun h => hak (hak'.trans h)),
             if_pos hak']
        · simp [hak']

theorem lookupE_insertE {β : Type} (m : List ((Nat × Nat) × β)) (k : Nat × Nat) (v : β)
    (k' : Nat × Nat) :
    lookupE (insertE m k v) k' = if k' = k then some v else lookupE m k' := by
  unfold insertE
  rw [lookupE_cons]
  by_cases h : k' = k
  · rw [if_pos h.symm, if_pos h]
  · rw [if_neg (fun hh => h hh.symm), if_neg h, lookupE_eraseE, if_neg h]

theorem lookupE_eraseE_imp {β : Type} {m : List ((Nat × Nat) × β)} {k k' : Nat × Nat}
    {v : β} (h : lookupE (eraseE m k) k' = some v) : lookupE m k' = some v := by
  rw [lookupE_eraseE] at h
  by_cases hk : k' = k <;> simp_all

theorem lookupE_eraseE_ne {β : Type} {m : List ((Nat × Nat) × β)} {k k' : Nat × Nat}
    {v : β} (h : lookupE (eraseE m k) k' = some v) : k' ≠ k := by
  intro he
  rw [lookupE_eraseE, if_pos he] at h
  cases h

theorem pruneFree_core [Inhabited S] (p : Params S U C) (e : Engine S U) (np : Nat)
    (hc : CoreWF p e) (hnf : np ∉ e.nodes_freelist) (hnl : np < e.nodes.length)
    (hch : (getNode e np).children = ∅) (hna : np ∉ e.nodes_active)
    (hpar : lookupA e.link_parent np = none) :
    CoreWF p (pruneFreeEngine e np) := by
  unfold pruneFreeEngine
  refine ⟨?_, ?_, ?_, ?_, ?_, ?_, ?_, ?_, ?_, ?_, ?_⟩
  · intro g hg
    rcases List.mem_cons.mp hg with heq | hg'
    · exact heq ▸ hnl
    · exact hc.fl_lt g hg'
  · intro g hg
    rcases List.mem_cons.mp hg with heq | hg'
    · exact heq ▸ hna
    · exact hc.fl_not_active g hg'
  · exact List.nodup_cons.mpr ⟨hnf, hc.fl_nodup⟩
  · exact hc.lp_val_lt
  · intro c q hq hmem
    rcases List.mem_cons.mp hmem with heq | hm'
    · exact Finset.not_mem_empty c (hch ▸ (heq ▸ hc.lp_child c q hq))
    · exact hc.lp_val_not_free c q hq hm'
  · exact hc.lp_child
  · exact hc.edge_lt
  · exact hc.edge_par
  · exact hc.edge_child
  · intro g hg a b ed hq
    rcases List.mem_cons.mp hg with heq | hg'
    · subst heq
      refine ⟨fun ha => ?_, fun hb => ?_⟩
      · exact Finset.not_mem_empty b (hch ▸ (ha ▸ hc.edge_child a b ed hq))
      · have hlp := hc.edge_par a b ed hq
        rw [hb, hpar] at hlp
        cases hlp
    · exact hc.fl_no_edge g hg' a b ed hq
  · exact hc.edge_safe

theorem pruneStep_core [Inhabited S] (p : Params S U C) (e : Engine S U) (np par : Nat)
    (hc : CoreWF p e) (hnf : np ∉ e.nodes_freelist) (hnl : np < e.nodes.length)
    (hch : (getNode e np).children = ∅) (hna : np ∉ e.nodes_active)
    (hpar : lookupA e.link_parent np = some par) :
    CoreWF p (pruneStepEngine e np par) := by
  have hparlt : par < e.nodes.length := hc.lp_val_lt np par hpar
  unfold pruneStepEngine
  refine ⟨?_, ?_, ?_, ?_, ?_, ?_, ?_, ?_, ?_, ?_, ?_⟩
  · intro g hg
    show g < (modifyChildren e.nodes par (fun ch => ch.erase np)).length
    rw [length_modifyChildren]
    rcases List.mem_cons.mp hg with heq | hg'
    · exact heq ▸ hnl
    · exact hc.fl_lt g hg'
  · intro g hg
    rcases List.mem_cons.mp hg with heq | hg'
    · exact heq ▸ hna
    · exact hc.fl_not_active g hg'
  · exact List.nodup_cons.mpr ⟨hnf, hc.fl_nodup⟩
  · intro c q hq
    have hq' := lookupA_eraseA_imp hq
    show q < (modifyChildren e.nodes par (fun ch => ch.erase np)).length
    rw [length_modifyChildren]
    exact hc.lp_val_lt c q hq'
  · intro c q hq hmem
    have hq' := lookupA_eraseA_imp hq
    rcases List.mem_cons.mp hmem with heq | hm'
    · exact Finset.not_mem_empty c (hch ▸ (heq ▸ hc.lp_child c q hq'))
    · exact hc.lp_val_not_free c q hq' hm'
  · intro c q hq
    have hq' := lookupA_eraseA_imp hq
    have hcq := hc.lp_child c q hq'
    have hcne : c ≠ np := by
      intro hcn
      rw [lookupA_eraseA, if_pos hcn] at hq
      cases hq
    by_cases hqp : q = par
    · subst hqp
      show c ∈ ((modifyChildren e.nodes q (fun ch => ch.erase np)).getD q default).children
      rw [getNode_modifyChildren_children_self _ _ _ hparlt]
      exact Finset.mem_erase.mpr ⟨hcne, hcq⟩
    · show c ∈ ((modifyChildren e.nodes par (fun ch => ch.erase np)).getD q default).children
      rw [getNode_modifyChildren_children_ne _ _ _ _ (fun h => hqp h.symm)]
      exact hcq
  · intro a b ed hq
    have hq' := lookupE_eraseE_imp hq
    have h := hc.edge_lt a b ed hq'
    show a < (modifyChildren e.nodes par (fun ch => ch.erase np)).length ∧
      b < (modifyChildren e.nodes par (fun ch => ch.erase np)).length
    rw [length_modifyChildren]
    exact h
  · intro a b ed hq
    have hq' := lookupE_eraseE_imp hq
    have hne := lookupE_eraseE_ne hq
    have hold := hc.edge_par a b ed hq'
    have hbne : b ≠ np := by
      intro hbn
      rw [hbn, hpar] at hold
      exact hne (by rw [hbn, ← Option.some.inj hold])
    rw [lookupA_eraseA, if_neg hbne]
    exact hold
  · intro a b ed hq
    have hq' := lookupE_eraseE_imp hq
    have hne := lookupE_eraseE_ne hq
    have hbc := hc.edge_child a b ed hq'
    have hbne : b ≠ np := by
      intro hbn
      have hold := hc.edge_par a b ed hq'
      rw [hbn, hpar] at hold
      exact hne (by rw [hbn, ← Option.some.inj hold])
    by_cases hap : a = par
    · subst hap
      show b ∈ ((modifyChildren e.nodes a (fun ch => ch.erase np)).getD a default).children
      rw [getNode_modifyChildren_children_self _ _ _ hparlt]
      exact Finset.mem_erase.mpr ⟨hbne, hbc⟩
    · show b ∈ ((modifyChildren e.nodes par (fun ch => ch.erase np)).getD a default).children
      rw [getNode_modifyChildren_children_ne _ _ _ _ (fun h => hap h.symm)]
      exact hbc
  · intro g hg a b ed hq
    have hq' := lookupE_eraseE_imp hq
    have hne := lookupE_eraseE_ne hq
    rcases List.mem_cons.mp hg with heq | hg'
    · subst heq
      refine ⟨fun ha => ?_, fun hb => ?_⟩
      · exact Finset.not_mem_empty b (hch ▸ (ha ▸ hc.edge_child a b ed hq'))
      · have hold := hc.edge_par a b ed hq'
        rw [hb, hpar] at hold
        exact hne (by rw [hb, ← Option.some.inj hold])
    · exact hc.fl_no_edge g hg' a b ed hq'
  · intro a b ed hq
    have hq' := lookupE_eraseE_imp hq
    have hsafe := hc.edge_safe a b ed hq'
    have hsa : ((modifyChildren e.nodes par (fun ch => ch.erase np)).getD a default).state =
        (e.nodes.getD a default).state := getNode_modifyChildren_state ..
    have hsb : ((modifyChildren e.nodes par (fun ch => ch.erase np)).getD b default).state =
        (e.nodes.getD b default).state := getNode_modifyChildren_state ..
    show p.collides
        (p.project_state_to_config
          ((modifyChildren e.nodes par (fun ch => ch.erase np)).getD a default).state)
        (p.project_state_to_config
          ((modifyChildren e.nodes par (fun ch => ch.erase np)).getD b default).state) = false
    rw [hsa, hsb]
    exact hsafe

theorem pruneLoop_core [Inhabited S] (p : Params S U C) (fuel : Nat) :
    ∀ (e : Engine S U) (np : Nat), CoreWF p e → np ∉ e.nodes_freelist →
      np < e.nodes.length → CoreWF p (pruneLoop fuel e np) := by
  induction fuel with
  | zero => intro e np hc _ _; exact hc
  | succ f ih =>
    intro e np hc hnf hnl
    unfold pruneLoop
    dsimp only
    by_cases hcond : (getNode e np).children = ∅ ∧ np ∉ e.nodes_active
    · rw [if_pos hcond]
      obtain ⟨hch, hna⟩ := hcond
      cases hpar : lookupA e.link_parent np with
      | none => exact pruneFree_core p e np hc hnf hnl hch hna hpar
      | some par =>
        dsimp only
        have hcore2 := pruneStep_core p e np par hc hnf hnl hch hna hpar
        have hparne : par ≠ np := by
          intro h
          exact Finset.not_mem_empty np (hch ▸ (h ▸ hc.lp_child np par hpar))
        have hparnf : par ∉ (pruneStepEngine e np par).nodes_freelist := by
          intro hmem
          rcases List.mem_cons.mp hmem with heq | hm'
          · exact hparne heq
          · exact hc.lp_val_not_free np par hpar hm'
        have hparlt : par < (pruneStepEngine e np par).nodes.length := by
          show par < (modifyChildren e.nodes par (fun ch => ch.erase np)).length
          rw [length_modifyChildren]
          exact hc.lp_val_lt np par hpar
        exact ih (pruneStepEngine e np par) par hcore2 hparnf hparlt
    · rw [if_neg hcond]
      exact hc

theorem insertNode_WF_nil [Inhabited S] (p : Params S U C) (e : Engine S U) (idxN : Nat)
    (st : S) (u : U) (c : ℚ) (b : Bool)
    (hw : WF p e) (hlt : idxN < e.nodes.length)
    (hsafe : p.collides (p.project_state_to_config (getNode e idxN).state)
      (p.project_state_to_config st) = false)
    (hfl : e.nodes_freelist = []) :
    WF p (insertNode e idxN st u c b).1 ∧
    (insertNode e idxN st u c b).1.nodes_active =
      insert (insertNode e idxN st u c b).2 e.nodes_active ∧
    (insertNode e idxN st u c b).2 ∉ (insertNode e idxN st u c b).1.nodes_freelist ∧
    (∀ g ∈ (insertNode e idxN st u c b).1.nodes_freelist, g ∈ e.nodes_freelist) ∧
    (getNode (insertNode e idxN st u c b).1 (insertNode e idxN st u c b).2).state = st ∧
    (insertNode e idxN st u c b).2 < (insertNode e idxN st u c b).1.nodes.length ∧
    e.nodes.length ≤ (insertNode e idxN st u c b).1.nodes.length ∧
    (∀ w r, lookupA e.witness_representative w = some r →
      r ≠ (insertNode e idxN st u c b).2) := by
  unfold insertNode
  rw [hfl]
  dsimp only
  have hlen : (modifyChildren
      (e.nodes ++ [{ id := e.nodes.length, state := st, children := ∅, cost := c }]) idxN
      (fun ch => insert e.nodes.length ch)).length = e.nodes.length + 1 := by
    rw [length_modifyChildren, List.length_append]
    rfl
  have happlt : idxN < (e.nodes ++
      [({ id := e.nodes.length, state := st, children := ∅, cost := c } : Node S)]).length := by
    rw [List.length_append]
    omega
  have hstO : ∀ j, j < e.nodes.length → ((modifyChildren
      (e.nodes ++ [{ id := e.nodes.length, state := st, children := ∅, cost := c }]) idxN
      (fun ch => insert e.nodes.length ch)).getD j default).state =
      (e.nodes.getD j default).state := by
    intro j hj
    rw [getNode_modifyChildren_state, getD_append_lt _ _ _ _ hj]
  have hstN : ((modifyChildren
      (e.nodes ++ [{ id := e.nodes.length, state := st, children := ∅, cost := c }]) idxN
      (fun ch => insert e.nodes.length ch)).getD e.nodes.length default).state = st := by
    rw [getNode_modifyChildren_state, getD_append_self]
  have hchSelf : ((modifyChildren
      (e.nodes ++ [{ id := e.nodes.length, state := st, children := ∅, cost := c }]) idxN
      (fun ch => insert e.nodes.length ch)).getD idxN default).children =
      insert e.nodes.length ((e.nodes.getD idxN default).children) := by
    rw [getNode_modifyChildren_children_self _ _ _ happlt, getD_append_lt _ _ _ _ hlt]
  have hchNe : ∀ j, j ≠ idxN → j < e.nodes.length → ((modifyChildren
      (e.nodes ++ [{ id := e.nodes.length, state := st, children := ∅, cost := c }]) idxN
      (fun ch => insert e.nodes.length ch)).getD j default).children =
      (e.nodes.getD j default).children := by
    intro j hne hj
    rw [getNode_modifyChildren_children_ne _ _ _ _ (fun h => hne h.symm),
      getD_append_lt _ _ _ _ hj]
  refine ⟨⟨⟨?_, ?_, ?_, ?_, ?_, ?_, ?_, ?_, ?_, ?_, ?_⟩, ?_, ?_, ?_, ?_, ?_⟩,
    rfl, ?_, ?_, ?_, ?_, ?_, ?_⟩
  · intro g hg
    exact absurd hg (List.not_mem_nil g)
  · intro g hg
    exact absurd hg (List.not_mem_nil g)
  · exact List.nodup_nil
  · intro cK q hq
    rw [lookupA_insertA] at hq
    show q < (modifyChildren
      (e.nodes ++ [{ id := e.nodes.length, state := st, children := ∅, cost := c }]) idxN
      (fun ch => insert e.nodes.length ch)).length
    rw [hlen]
    by_cases hk : cK = e.nodes.length
    · rw [if_pos hk] at hq
      have hqi := Option.some.inj hq
      omega
    · rw [if_neg hk] at hq
      have := hw.core.lp_val_lt cK q hq
      omega
  · intro cK q hq hm
    exact absurd hm (List.not_mem_nil q)
  · intro cK q hq
    rw [lookupA_insertA] at hq
    by_cases hk : cK = e.nodes.length
    · rw [if_pos hk] at hq
      have hqi := Option.some.inj hq
      subst hk
      rw [← hqi]
      simp only [getNode]
      rw [hchSelf]
      exact Finset.mem_insert_self ..
    · rw [if_neg hk] at hq
      have hold := hw.core.lp_child cK q hq
      have hqlt := hw.core.lp_val_lt cK q hq
      simp only [getNode]
      by_cases hqi : q = idxN
      · subst hqi
        rw [hchSelf]
        exact Finset.mem_insert_of_mem (by simpa [getNode] using hold)
      · rw [hchNe q hqi hqlt]
        simpa [getNode] using hold
  · intro a b' ed hq
    rw [lookupE_insertE] at hq
    show a < (modifyChildren
      (e.nodes ++ [{ id := e.nodes.length, state := st, children := ∅, cost := c }]) idxN
      (fun ch => insert e.nodes.length ch)).length ∧
      b' < (modifyChildren
      (e.nodes ++ [{ id := e.nodes.length, state := st, children := ∅, cost := c }]) idxN
      (fun ch => insert e.nodes.length ch)).length
    rw [hlen]
    by_cases hk : (a, b') = (idxN, e.nodes.length)
    · obtain ⟨ha, hb⟩ := Prod.ext_iff.mp hk
      dsimp only at ha hb
      omega
    · rw [if_neg hk] at hq
      have := hw.core.edge_lt a b' ed hq
      omega
  · intro a b' ed hq
    rw [lookupE_insertE] at hq
    by_cases hk : (a, b') = (idxN, e.nodes.length)
    · obtain ⟨ha, hb⟩ := Prod.ext_iff.mp hk
      dsimp only at ha hb
      subst ha
      subst hb
      rw [lookupA_insertA, if_pos rfl]
    · rw [if_neg hk] at hq
      have hold := hw.core.edge_par a b' ed hq
      have hblt := (hw.core.edge_lt a b' ed hq).2
      rw [lookupA_insertA, if_neg (by omega)]
      exact hold
  · intro a b' ed hq
    rw [lookupE_insertE] at hq
    simp only [getNode]
    by_cases hk : (a, b') = (idxN, e.nodes.length)
    · obtain ⟨ha, hb⟩ := Prod.ext_iff.mp hk
      dsimp only at ha hb
      subst ha
      subst hb
      rw [hchSelf]
      exact Finset.mem_insert_self ..
    · rw [if_neg hk] at hq
      have hold := hw.core.edge_child a b' ed hq
      have halt := (hw.core.edge_lt a b' ed hq).1
      by_cases hai : a = idxN
      · subst hai
        rw [hchSelf]
        exact Finset.mem_insert_of_mem (by simpa [getNode] using hold)
      · rw [hchNe a hai halt]
        simpa [getNode] using hold
  · intro g hg a b' ed hq
    exact absurd hg (List.not_mem_nil g)
  · intro a b' ed hq
    rw [lookupE_insertE] at hq
    simp only [getNode]
    by_cases hk : (a, b') = (idxN, e.nodes.length)
    · obtain ⟨ha, hb⟩ := Prod.ext_iff.mp hk
      dsimp only at ha hb
      subst ha
      subst hb
      rw [hstO a hlt, hstN]
      simpa [getNode] using hsafe
    · rw [if_neg hk] at hq
      have hold := hw.core.edge_safe a b' ed hq
      have halt := (hw.core.edge_lt a b' ed hq).1
      have hblt := (hw.core.edge_lt a b' ed hq).2
      rw [hstO a halt, hstO b' hblt]
      simpa [getNode] using hold
  · exact hw.wr_key_lt
  · intro w r hq
    have := hw.wr_val_lt w r hq
    show r < (modifyChildren
      (e.nodes ++ [{ id := e.nodes.length, state := st, children := ∅, cost := c }]) idxN
      (fun ch => insert e.nodes.length ch)).length
    rw [hlen]
    omega
  · intro w r hq
    exact Finset.mem_insert_of_mem (hw.wr_active w r hq)
  · exact hw.wr_inj
  · intro w r hq
    have hm := hw.wr_metric w r hq
    have hrlt := hw.wr_val_lt w r hq
    simp only [getNode]
    rw [hstO r hrlt]
    simpa [getNode] using hm
  · simp
  · intro g hg
    exact hg
  · simp only [getNode]
    exact hstN
  · show e.nodes.length < (modifyChildren
      (e.nodes ++ [{ id := e.nodes.length, state := st, children := ∅, cost := c }]) idxN
      (fun ch => insert e.nodes.length ch)).length
    rw [hlen]
    omega
  · show e.nodes.length ≤ (modifyChildren
      (e.nodes ++ [{ id := e.nodes.length, state := st, children := ∅, cost := c }]) idxN
      (fun ch => insert e.nodes.length ch)).length
    rw [hlen]
    omega
  · intro w r hq
    have := hw.wr_val_lt w r hq
    omega

theorem insertNode_WF_cons [Inhabited S] (p : Params S U C) (e : Engine S U) (idxN : Nat)
    (st : S) (u : U) (c : ℚ) (b : Bool) (slot : Nat) (rest : List Nat)
    (hw : WF p e) (hlt : idxN < e.nodes.length) (hnf : idxN ∉ e.nodes_freelist)
    (hsafe : p.collides (p.project_state_to_config (getNode e idxN).state)
      (p.project_state_to_config st) = false)
    (hfl : e.nodes_freelist = slot :: rest) :
    WF p (insertNode e idxN st u c b).1 ∧
    (insertNode e idxN st u c b).1.nodes_active =
      insert (insertNode e idxN st u c b).2 e.nodes_active ∧
    (insertNode e idxN st u c b).2 ∉ (insertNode e idxN st u c b).1.nodes_freelist ∧
    (∀ g ∈ (insertNode e idxN st u c b).1.nodes_freelist, g ∈ e.nodes_freelist) ∧
    (getNode (insertNode e idxN st u c b).1 (insertNode e idxN st u c b).2).state = st ∧
    (insertNode e idxN st u c b).2 < (insertNode e idxN st u c b).1.nodes.length ∧
    e.nodes.length ≤ (insertNode e idxN st u c b).1.nodes.length ∧
    (∀ w r, lookupA e.witness_representative w = some r →
      r ≠ (insertNode e idxN st u c b).2) := by
  have hslotmem : slot ∈ e.nodes_freelist := by
    rw [hfl]
    exact List.mem_cons_self ..
  have hslotlt : slot < e.nodes.length := hw.core.fl_lt slot hslotmem
  have hslotna : slot ∉ e.nodes_active := hw.core.fl_not_active slot hslotmem
  have hslotnr : slot ∉ rest := (List.nodup_cons.mp (hfl ▸ hw.core.fl_nodup)).1
  have hrest : ∀ g ∈ rest, g ∈ e.nodes_freelist := by
    intro g hg
    rw [hfl]
    exact List.mem_cons_of_mem _ hg
  have hidxslot : idxN ≠ slot := by
    intro h
    exact hnf (h ▸ hslotmem)
  have hidxrest : idxN ∉ rest := fun h => hnf (hrest idxN h)
  unfold insertNode
  rw [hfl]
  dsimp only
  have hlen : (modifyChildren
      (e.nodes.set slot { id := slot, state := st, children := ∅, cost := c }) idxN
      (fun ch => insert slot ch)).length = e.nodes.length := by
    rw [length_modifyChildren, List.length_set]
  have hsetlt : idxN < (e.nodes.set slot
      { id := slot, state := st, children := ∅, cost := c }).length := by
    rw [List.length_set]
    omega
  have hstO : ∀ j, j ≠ slot → ((modifyChildren
      (e.nodes.set slot { id := slot, state := st, children := ∅, cost := c }) idxN
      (fun ch => insert slot ch)).getD j default).state =
      (e.nodes.getD j default).state := by
    intro j hj
    rw [getNode_modifyChildren_state, getD_set_ne _ _ _ _ _ (fun h => hj h.symm)]
  have hstN : ((modifyChildren
      (e.nodes.set slot { id := slot, state := st, children := ∅, cost := c }) idxN
      (fun ch => insert slot ch)).getD slot default).state = st := by
    rw [getNode_modifyChildren_state, getD_set_self _ _ _ _ hslotlt]
  have hchSelf : ((modifyChildren
      (e.nodes.set slot { id := slot, state := st, children := ∅, cost := c }) idxN
      (fun ch => insert slot ch)).getD idxN default).children =
      insert slot ((e.nodes.getD idxN default).children) := by
    rw [getNode_modifyChildren_children_self _ _ _ hsetlt,
      getD_set_ne _ _ _ _ _ (fun h => hidxslot h.symm)]
  have hchNe : ∀ j, j ≠ idxN → j ≠ slot → ((modifyChildren
      (e.nodes.set slot { id := slot, state := st, children := ∅, cost := c }) idxN
      (fun ch => insert slot ch)).getD j default).children =
      (e.nodes.getD j default).children := by
    intro j hne hjs
    rw [getNode_modifyChildren_children_ne _ _ _ _ (fun h => hne h.symm),
      getD_set_ne _ _ _ _ _ (fun h => hjs h.symm)]
  refine ⟨⟨⟨?_, ?_, ?_, ?_, ?_, ?_, ?_, ?_, ?_, ?_, ?_⟩, ?_, ?_, ?_, ?_, ?_⟩,
    rfl, ?_, ?_, ?_, ?_, ?_, ?_⟩
  · intro g hg
    show g < (modifyChildren
      (e.nodes.set slot { id := slot, state := st, children := ∅, cost := c }) idxN
      (fun ch => insert slot ch)).length
    rw [hlen]
    exact hw.core.fl_lt g (hrest g hg)
  · intro g hg hm
    rcases Finset.mem_insert.mp hm with heq | hm'
    · exact hslotnr (heq ▸ hg)
    · exact hw.core.fl_not_active g (hrest g hg) hm'
  · exact (List.nodup_cons.mp (hfl ▸ hw.core.fl_nodup)).2
  · intro cK q hq
    rw [lookupA_insertA] at hq
    show q < (modifyChildren
      (e.nodes.set slot { id := slot, state := st, children := ∅, cost := c }) idxN
      (fun ch => insert slot ch)).length
    rw [hlen]
    by_cases hk : cK = slot
    · rw [if_pos hk] at hq
      have hqi := Option.some.inj hq
      omega
    · rw [if_neg hk] at hq
      exact hw.core.lp_val_lt cK q hq
  · intro cK q hq hm
    rw [lookupA_insertA] at hq
    by_cases hk : cK = slot
    · rw [if_pos hk] at hq
      have hqi := Option.some.inj hq
      exact hidxrest (hqi ▸ hm)
    · rw [if_neg hk] at hq
      exact hw.core.lp_val_not_free cK q hq (hrest q hm)
  · intro cK q hq
    rw [lookupA_insertA] at hq
    by_cases hk : cK = slot
    · rw [if_pos hk] at hq
      have hqi := Option.some.inj hq
      subst hk
      rw [← hqi]
      simp only [getNode]
      rw [hchSelf]
      exact Finset.mem_insert_self ..
    · rw [if_neg hk] at hq
      have hold := hw.core.lp_child cK q hq
      have hqs : q ≠ slot := fun h => hw.core.lp_val_not_free cK q hq (h ▸ hslotmem)
      simp only [getNode]
      by_cases hqi : q = idxN
      · subst hqi
        rw [hchSelf]
        exact Finset.mem_insert_of_mem (by simpa [getNode] using hold)
      · rw [hchNe q hqi hqs]
        simpa [getNode] using hold
  · intro a b' ed hq
    rw [lookupE_insertE] at hq
    show a < (modifyChildren
      (e.nodes.set slot { id := slot, state := st, children := ∅, cost := c }) idxN
      (fun ch => insert slot ch)).length ∧
      b' < (modifyChildren
      (e.nodes.set slot { id := slot, state := st, children := ∅, cost := c }) idxN
      (fun ch => insert slot ch)).length
    rw [hlen]
    by_cases hk : (a, b') = (idxN, slot)
    · obtain ⟨ha, hb⟩ := Prod.ext_iff.mp hk
      dsimp only at ha hb
      omega
    · rw [if_neg hk] at hq
      exact hw.core.edge_lt a b' ed hq
  · intro a b' ed hq
    rw [lookupE_insertE] at hq
    by_cases hk : (a, b') = (idxN, slot)
    · obtain ⟨ha, hb⟩ := Prod.ext_iff.mp hk
      dsimp only at ha hb
      subst ha
      subst hb
      rw [lookupA_insertA, if_pos rfl]
    · rw [if_neg hk] at hq
      have hold := hw.core.edge_par a b' ed hq
      have hbs : b' ≠ slot := (hw.core.fl_no_edge slot hslotmem a b' ed hq).2
      rw [lookupA_insertA, if_neg hbs]
      exact hold
  · intro a b' ed hq
    rw [lookupE_insertE] at hq
    simp only [getNode]
    by_cases hk : (a, b') = (idxN, slot)
    · obtain ⟨ha, hb⟩ := Prod.ext_iff.mp hk
      dsimp only at ha hb
      subst ha
      subst hb
      rw [hchSelf]
      exact Finset.mem_insert_self ..
    · rw [if_neg hk] at hq
      have hold := hw.core.edge_child a b' ed hq
      have has : a ≠ slot := (hw.core.fl_no_edge slot hslotmem a b' ed hq).1
      by_cases hai : a = idxN
      · subst hai
        rw [hchSelf]
        exact Finset.mem_insert_of_mem (by simpa [getNode] using hold)
      · rw [hchNe a hai has]
        simpa [getNode] using hold
  · intro g hg a b' ed hq
    rw [lookupE_insertE] at hq
    by_cases hk : (a, b') = (idxN, slot)
    · obtain ⟨ha, hb⟩ := Prod.ext_iff.mp hk
      dsimp only at ha hb
      subst ha
      subst hb
      exact ⟨fun h => hidxrest (h ▸ hg), fun h => hslotnr (h ▸ hg)⟩
    · rw [if_neg hk] at hq
      exact hw.core.fl_no_edge g (hrest g hg) a b' ed hq
  · intro a b' ed hq
    rw [lookupE_insertE] at hq
    simp only [getNode]
    by_cases hk : (a, b') = (idxN, slot)
    · obtain ⟨ha, hb⟩ := Prod.ext_iff.mp hk
      dsimp only at ha hb
      subst ha
      subst hb
      rw [hstO a hidxslot, hstN]
      simpa [getNode] using hsafe
    · rw [if_neg hk] at hq
      have hold := hw.core.edge_safe a b' ed hq
      have has : a ≠ slot := (hw.core.fl_no_edge slot hslotmem a b' ed hq).1
      have hbs : b' ≠ slot := (hw.core.fl_no_edge slot hslotmem a b' ed hq).2
      rw [hstO a has, hstO b' hbs]
      simpa [getNode] using hold
  · exact hw.wr_key_lt
  · intro w r hq
    have := hw.wr_val_lt w r hq
    show r < (modifyChildren
      (e.nodes.set slot { id := slot, state := st, children := ∅, cost := c }) idxN
      (fun ch => insert slot ch)).length
    rw [hlen]
    omega
  · intro w r hq
    exact Finset.mem_insert_of_mem (hw.wr_active w r hq)
  · exact hw.wr_inj
  · intro w r hq
    have hm := hw.wr_metric w r hq
    have hrs : r ≠ slot := fun h => hslotna (h ▸ hw.wr_active w r hq)
    simp only [getNode]
    rw [hstO r hrs]
    simpa [getNode] using hm
  · exact hslotnr
  · intro g hg
    exact List.mem_cons_of_mem _ hg
  · simp only [getNode]
    exact hstN
  · show slot < (modifyChildren
      (e.nodes.set slot { id := slot, state := st, children := ∅, cost := c }) idxN
      (fun ch => insert slot ch)).length
    rw [hlen]
    omega
  · show e.nodes.length ≤ (modifyChildren
      (e.nodes.set slot { id := slot, state := st, children := ∅, cost := c }) idxN
      (fun ch => insert slot ch)).length
    rw [hlen]
  · intro w r hq
    exact fun h => hslotna (h ▸ hw.wr_active w r hq)

theorem insertNode_WF [Inhabited S] (p : Params S U C) (e : Engine S U) (idxN : Nat)
    (st : S) (u : U) (c : ℚ) (b : Bool)
    (hw : WF p e) (hlt : idxN < e.nodes.length) (hnf : idxN ∉ e.nodes_freelist)
    (hsafe : p.collides (p.project_state_to_config (getNode e idxN).state)
      (p.project_state_to_config st) = false) :
    WF p (insertNode e idxN st u c b).1 ∧
    (insertNode e idxN st u c b).1.nodes_active =
      insert (insertNode e idxN st u c b).2 e.nodes_active ∧
    (insertNode e idxN st u c b).2 ∉ (insertNode e idxN st u c b).1.nodes_freelist ∧
    (∀ g ∈ (insertNode e idxN st u c b).1.nodes_freelist, g ∈ e.nodes_freelist) ∧
    (getNode (insertNode e idxN st u c b).1 (insertNode e idxN st u c b).2).state = st ∧
    (insertNode e idxN st u c b).2 < (insertNode e idxN st u c b).1.nodes.length ∧
    e.nodes.length ≤ (insertNode e idxN st u c b).1.nodes.length ∧
    (∀ w r, lookupA e.witness_representative w = some r →
      r ≠ (insertNode e idxN st u c b).2) := by
  cases hfl : e.nodes_freelist with
  | nil =>
    have h := insertNode_WF_nil p e idxN st u c b hw hlt hsafe hfl
    rwa [hfl] at h
  | cons slot rest =>
    have h := insertNode_WF_cons p e idxN st u c b slot rest hw hlt hnf hsafe hfl
    rwa [hfl] at h

theorem admitStep_WF [Inhabited S] (p : Params S U C) (e3 : Engine S U) (o : StepOracle S U)
    (wIdx : Nat) (sp : S) (cfgB cfgA : C) (cst : ℚ) (r : Bool)
    (hw : WF p e3)
    (hlt : o.idxNearest < e3.nodes.length) (hnf : o.idxNearest ∉ e3.nodes_freelist)
    (hcfgB : cfgB = p.project_state_to_config (getNode e3 o.idxNearest).state)
    (hcfgA : cfgA = p.project_state_to_config sp)
    (hwlt : wIdx < e3.witnesses.length)
    (hwmet : p.ss_metric (e3.witnesses.getD wIdx default) sp ≤ p.delta_s) :
    WF p (admitStep p e3 o wIdx sp cfgB cfgA cst r).1 := by
  unfold admitStep
  cases hrep : lookupA e3.witness_representative wIdx with
  | none =>
    dsimp only
    by_cases hc : p.collides cfgB cfgA = true
    · rw [if_pos hc]
      exact ⟨⟨hw.core.fl_lt, hw.core.fl_not_active, hw.core.fl_nodup, hw.core.lp_val_lt,
        hw.core.lp_val_not_free, hw.core.lp_child, hw.core.edge_lt, hw.core.edge_par,
        hw.core.edge_child, hw.core.fl_no_edge, hw.core.edge_safe⟩,
        hw.wr_key_lt, hw.wr_val_lt, hw.wr_active, hw.wr_inj, hw.wr_metric⟩
    · rw [if_neg hc]
      dsimp only
      have hsafe : p.collides (p.project_state_to_config (getNode e3 o.idxNearest).state)
          (p.project_state_to_config sp) = false := by
        rw [← hcfgB, ← hcfgA]
        simpa using hc
      obtain ⟨hwf1, hact, hnfree, hsub, hstate, hlen2, hlemono, hne⟩ :=
        insertNode_WF p e3 o.idxNearest sp o.control cst o.isPrim hw hlt hnf hsafe
      have hwit := (insertNode_frame e3 o.idxNearest sp o.control cst o.isPrim).1
      have hwr := (insertNode_frame e3 o.idxNearest sp o.control cst o.isPrim).2.1
      refine ⟨⟨hwf1.core.fl_lt, hwf1.core.fl_not_active, hwf1.core.fl_nodup,
        hwf1.core.lp_val_lt, hwf1.core.lp_val_not_free, hwf1.core.lp_child,
        hwf1.core.edge_lt, hwf1.core.edge_par, hwf1.core.edge_child,
        hwf1.core.fl_no_edge, hwf1.core.edge_safe⟩, ?_, ?_, ?_, ?_, ?_⟩
      · intro w r' hq
        rw [lookupA_insertA] at hq
        rw [hwit]
        by_cases hk : w = wIdx
        · subst hk
          exact hwlt
        · rw [if_neg hk, hwr] at hq
          exact hw.wr_key_lt w r' hq
      · intro w r' hq
        rw [lookupA_insertA] at hq
        by_cases hk : w = wIdx
        · rw [if_pos hk] at hq
          rw [← Option.some.inj hq]
          exact hlen2
        · rw [if_neg hk] at hq
          exact hwf1.wr_val_lt w r' hq
      · intro w r' hq
        rw [lookupA_insertA] at hq
        by_cases hk : w = wIdx
        · rw [if_pos hk] at hq
          rw [← Option.some.inj hq, hact]
          exact Finset.mem_insert_self ..
        · rw [if_neg hk] at hq
          exact hwf1.wr_active w r' hq
      · intro w w' r' h1 h2
        rw [lookupA_insertA] at h1 h2
        by_cases hk1 : w = wIdx <;> by_cases hk2 : w' = wIdx
        · rw [hk1, hk2]
        · rw [if_pos hk1] at h1
          rw [if_neg hk2, hwr] at h2
          exact absurd (Option.some.inj h1).symm (hne w' r' h2)
        · rw [if_neg hk1, hwr] at h1
          rw [if_pos hk2] at h2
          exact absurd (Option.some.inj h2).symm (hne w r' h1)
        · rw [if_neg hk1] at h1
          rw [if_neg hk2] at h2
          exact hwf1.wr_inj w w' r' h1 h2
      · intro w r' hq
        rw [lookupA_insertA] at hq
        by_cases hk : w = wIdx
        · rw [if_pos hk] at hq
          subst hk
          rw [← Option.some.inj hq, hwit]
          simp only [getNode] at hstate ⊢
          rw [hstate]
          exact hwmet
        · rw [if_neg hk] at hq
          exact hwf1.wr_metric w r' hq
  | some repr =>
    dsimp only
    by_cases hadm : (decide (cst < (getNode e3 repr).cost) || r ||
        (e3.witness_disturbance && o.disturbCoin)) = true
    · rw [if_pos hadm]
      by_cases hc : p.collides cfgB cfgA = true
      · rw [if_pos hc]
        exact ⟨⟨hw.core.fl_lt, hw.core.fl_not_active, hw.core.fl_nodup, hw.core.lp_val_lt,
          hw.core.lp_val_not_free, hw.core.lp_child, hw.core.edge_lt, hw.core.edge_par,
          hw.core.edge_child, hw.core.fl_no_edge, hw.core.edge_safe⟩,
          hw.wr_key_lt, hw.wr_val_lt, hw.wr_active, hw.wr_inj, hw.wr_metric⟩
      · rw [if_neg hc]
        dsimp only
        have hsafe : p.collides (p.project_state_to_config (getNode e3 o.idxNearest).state)
            (p.project_state_to_config sp) = false := by
          rw [← hcfgB, ← hcfgA]
          simpa using hc
        obtain ⟨hwf1, hact, hnfree, hsub, hstate, hlen2, hlemono, hne⟩ :=
          insertNode_WF p e3 o.idxNearest sp o.control cst o.isPrim hw hlt hnf hsafe
        have hwit := (insertNode_frame e3 o.idxNearest sp o.control cst o.isPrim).1
        have hwr := (insertNode_frame e3 o.idxNearest sp o.control cst o.isPrim).2.1
        have hreprlt := hw.wr_val_lt wIdx repr hrep
        have hrepract := hw.wr_active wIdx repr hrep
        have hreprnf : repr ∉ e3.nodes_freelist :=
          fun h => hw.core.fl_not_active repr h hrepract
        have hreprne : repr ≠
            (insertNode e3 o.idxNearest sp o.control cst o.isPrim).2 :=
          hne wIdx repr hrep
        have hcoreB : CoreWF p
            (inactivateNode (insertNode e3 o.idxNearest sp o.control cst o.isPrim).1 repr) :=
          ⟨hwf1.core.fl_lt,
           fun f hf hm => hwf1.core.fl_not_active f hf (Finset.mem_of_mem_erase hm),
           hwf1.core.fl_nodup, hwf1.core.lp_val_lt, hwf1.core.lp_val_not_free,
           hwf1.core.lp_child, hwf1.core.edge_lt, hwf1.core.edge_par, hwf1.core.edge_child,
           hwf1.core.fl_no_edge, hwf1.core.edge_safe⟩
        by_cases hpr : p.pruning_enabled = true
        · rw [if_pos hpr]
          have hreprB : repr ∉
              (inactivateNode (insertNode e3 o.idxNearest sp o.control cst o.isPrim).1
                repr).nodes_freelist :=
            fun h => hreprnf (hsub repr h)
          have hreprltB : repr <
              (inactivateNode (insertNode e3 o.idxNearest sp o.control cst o.isPrim).1
                repr).nodes.length :=
            lt_of_lt_of_le hreprlt hlemono
          have hcore5 := pruneLoop_core p
            (insertNode e3 o.idxNearest sp o.control cst o.isPrim).1.nodes.length
            (inactivateNode (insertNode e3 o.idxNearest sp o.control cst o.isPrim).1 repr)
            repr hcoreB hreprB hreprltB
          have hfr := pruneLoop_frame
            (insertNode e3 o.idxNearest sp o.control cst o.isPrim).1.nodes.length
            (inactivateNode (insertNode e3 o.idxNearest sp o.control cst o.isPrim).1 repr)
            repr
          have hPwit1 : (pruneLoop
              (insertNode e3 o.idxNearest sp o.control cst o.isPrim).1.nodes.length
              (inactivateNode (insertNode e3 o.idxNearest sp o.control cst o.isPrim).1 repr)
              repr).witnesses =
              (insertNode e3 o.idxNearest sp o.control cst o.isPrim).1.witnesses := hfr.1
          have hPwit : (pruneLoop
              (insertNode e3 o.idxNearest sp o.control cst o.isPrim).1.nodes.length
              (inactivateNode (insertNode e3 o.idxNearest sp o.control cst o.isPrim).1 repr)
              repr).witnesses = e3.witnesses := hPwit1.trans hwit
          have hPwr1 : (pruneLoop
              (insertNode e3 o.idxNearest sp o.control cst o.isPrim).1.nodes.length
              (inactivateNode (insertNode e3 o.idxNearest sp o.control cst o.isPrim).1 repr)
              repr).witness_representative =
              (insertNode e3 o.idxNearest sp o.control cst o.isPrim).1.witness_representative :=
            hfr.2.1
          have hPwr : (pruneLoop
              (insertNode e3 o.idxNearest sp o.control cst o.isPrim).1.nodes.length
              (inactivateNode (insertNode e3 o.idxNearest sp o.control cst o.isPrim).1 repr)
              repr).witness_representative = e3.witness_representative := hPwr1.trans hwr
          have hPact : (pruneLoop
              (insertNode e3 o.idxNearest sp o.control cst o.isPrim).1.nodes.length
              (inactivateNode (insertNode e3 o.idxNearest sp o.control cst o.isPrim).1 repr)
              repr).nodes_active =
              (insert (insertNode e3 o.idxNearest sp o.control cst o.isPrim).2
                e3.nodes_active).erase repr := by
            rw [hfr.2.2.1]
            show (insertNode e3 o.idxNearest sp o.control cst o.isPrim).1.nodes_active.erase
              repr = _
            rw [hact]
          have hPlen : (pruneLoop
              (insertNode e3 o.idxNearest sp o.control cst o.isPrim).1.nodes.length
              (inactivateNode (insertNode e3 o.idxNearest sp o.control cst o.isPrim).1 repr)
              repr).nodes.length =
              (insertNode e3 o.idxNearest sp o.control cst o.isPrim).1.nodes.length :=
            hfr.2.2.2.1
          have hPst : ∀ i, ((pruneLoop
              (insertNode e3 o.idxNearest sp o.control cst o.isPrim).1.nodes.length
              (inactivateNode (insertNode e3 o.idxNearest sp o.control cst o.isPrim).1 repr)
              repr).nodes.getD i default).state =
              ((insertNode e3 o.idxNearest sp o.control cst o.isPrim).1.nodes.getD i
                default).state :=
            hfr.2.2.2.2.1
          refine ⟨⟨hcore5.fl_lt, hcore5.fl_not_active, hcore5.fl_nodup,
            hcore5.lp_val_lt, hcore5.lp_val_not_free, hcore5.lp_child,
            hcore5.edge_lt, hcore5.edge_par, hcore5.edge_child,
            hcore5.fl_no_edge, hcore5.edge_safe⟩, ?_, ?_, ?_, ?_, ?_⟩
          · intro w r' hq
            rw [lookupA_insertA] at hq
            rw [hPwit]
            by_cases hk : w = wIdx
            · subst hk
              exact hwlt
            · rw [if_neg hk, hPwr] at hq
              exact hw.wr_key_lt w r' hq
          · intro w r' hq
            rw [lookupA_insertA] at hq
            rw [hPlen]
            by_cases hk : w = wIdx
            · rw [if_pos hk] at hq
              rw [← Option.some.inj hq]
              exact hlen2
            · rw [if_neg hk, hPwr] at hq
              exact lt_of_lt_of_le (hw.wr_val_lt w r' hq) hlemono
          · intro w r' hq
            rw [lookupA_insertA] at hq
            rw [hPact]
            by_cases hk : w = wIdx
            · rw [if_pos hk] at hq
              rw [← Option.some.inj hq]
              exact Finset.mem_erase.mpr ⟨hreprne.symm, Finset.mem_insert_self ..⟩
            · rw [if_neg hk, hPwr] at hq
              refine Finset.mem_erase.mpr ⟨?_, Finset.mem_insert_of_mem (hw.wr_active w r' hq)⟩
              intro h
              exact hk (hw.wr_inj w wIdx r' hq (h ▸ hrep))
          · intro w w' r' h1 h2
            rw [lookupA_insertA] at h1 h2
            by_cases hk1 : w = wIdx <;> by_cases hk2 : w' = wIdx
            · rw [hk1, hk2]
            · rw [if_pos hk1] at h1
              rw [if_neg hk2, hPwr] at h2
              exact absurd (Option.some.inj h1).symm (hne w' r' h2)
            · rw [if_neg hk1, hPwr] at h1
              rw [if_pos hk2] at h2
              exact absurd (Option.some.inj h2).symm (hne w r' h1)
            · rw [if_neg hk1, hPwr] at h1
              rw [if_neg hk2, hPwr] at h2
              exact hw.wr_inj w w' r' h1 h2
          · intro w r' hq
            rw [lookupA_insertA] at hq
            by_cases hk : w = wIdx
            · rw [if_pos hk] at hq
              subst hk
              rw [← Option.some.inj hq, hPwit]
              simp only [getNode] at hstate ⊢
              rw [hPst, hstate]
              exact hwmet
            · rw [if_neg hk, hPwr1] at hq
              have hm := hwf1.wr_metric w r' hq
              simp only [getNode] at hm ⊢
              rw [hPwit1, hPst]
              exact hm
        · rw [if_neg hpr]
          refine ⟨⟨hwf1.core.fl_lt, hwf1.core.fl_not_active, hwf1.core.fl_nodup,
            hwf1.core.lp_val_lt, hwf1.core.lp_val_not_free, hwf1.core.lp_child,
            hwf1.core.edge_lt, hwf1.core.edge_par, hwf1.core.edge_child,
            hwf1.core.fl_no_edge, hwf1.core.edge_safe⟩, ?_, ?_, ?_, ?_, ?_⟩
          · intro w r' hq
            rw [lookupA_insertA] at hq
            rw [hwit]
            by_cases hk : w = wIdx
            · subst hk
              exact hwlt
            · rw [if_neg hk, hwr] at hq
              exact hw.wr_key_lt w r' hq
          · intro w r' hq
            rw [lookupA_insertA] at hq
            by_cases hk : w = wIdx
            · rw [if_pos hk] at hq
              rw [← Option.some.inj hq]
              exact hlen2
            · rw [if_neg hk] at hq
              exact hwf1.wr_val_lt w r' hq
          · intro w r' hq
            rw [lookupA_insertA] at hq
            by_cases hk : w = wIdx
            · rw [if_pos hk] at hq
              rw [← Option.some.inj hq, hact]
              exact Finset.mem_insert_self ..
            · rw [if_neg hk] at hq
              exact hwf1.wr_active w r' hq
          · intro w w' r' h1 h2
            rw [lookupA_insertA] at h1 h2
            by_cases hk1 : w = wIdx <;> by_cases hk2 : w' = wIdx
            · rw [hk1, hk2]
            · rw [if_pos hk1] at h1
              rw [if_neg hk2, hwr] at h2
              exact absurd (Option.some.inj h1).symm (hne w' r' h2)
            · rw [if_neg hk1, hwr] at h1
              rw [if_pos hk2] at h2
              exact absurd (Option.some.inj h2).symm (hne w r' h1)
            · rw [if_neg hk1] at h1
              rw [if_neg hk2] at h2
              exact hwf1.wr_inj w w' r' h1 h2
          · intro w r' hq
            rw [lookupA_insertA] at hq
            by_cases hk : w = wIdx
            · rw [if_pos hk] at hq
              subst hk
              rw [← Option.some.inj hq, hwit]
              simp only [getNode] at hstate ⊢
              rw [hstate]
              exact hwmet
            · rw [if_neg hk] at hq
              exact hwf1.wr_metric w r' hq
    · rw [if_neg hadm]
      exact ⟨⟨hw.core.fl_lt, hw.core.fl_not_active, hw.core.fl_nodup, hw.core.lp_val_lt,
        hw.core.lp_val_not_free, hw.core.lp_child, hw.core.edge_lt, hw.core.edge_par,
        hw.core.edge_child, hw.core.fl_no_edge, hw.core.edge_safe⟩,
        hw.wr_key_lt, hw.wr_val_lt, hw.wr_active, hw.wr_inj, hw.wr_metric⟩

/-- Transport of well-formedness along field-wise equal engines (witnesses may
have been extended on the right). -/
theorem WF_transport [Inhabited S] (p : Params S U C) (e e' : Engine S U) (ts : List S)
    (hn : e'.nodes = e.nodes) (hfl : e'.nodes_freelist = e.nodes_freelist)
    (ha : e'.nodes_active = e.nodes_active) (hlp : e'.link_parent = e.link_parent)
    (hed : e'.edges = e.edges) (hwit : e'.witnesses = e.witnesses ++ ts)
    (hwr : e'.witness_representative = e.witness_representative)
    (hw : WF p e) : WF p e' := by
  have hgn : ∀ i, getNode e' i = getNode e i := fun i => by unfold getNode; rw [hn]
  refine ⟨⟨?_, ?_, ?_, ?_, ?_, ?_, ?_, ?_, ?_, ?_, ?_⟩, ?_, ?_, ?_, ?_, ?_⟩
  · intro g hg
    rw [hfl] at hg
    rw [hn]
    exact hw.core.fl_lt g hg
  · intro g hg
    rw [hfl] at hg
    rw [ha]
    exact hw.core.fl_not_active g hg
  · rw [hfl]
    exact hw.core.fl_nodup
  · intro c q hq
    rw [hlp] at hq
    rw [hn]
    exact hw.core.lp_val_lt c q hq
  · intro c q hq
    rw [hlp] at hq
    rw [hfl]
    exact hw.core.lp_val_not_free c q hq
  · intro c q hq
    rw [hlp] at hq
    rw [hgn]
    exact hw.core.lp_child c q hq
  · intro a b ed hq
    rw [hed] at hq
    rw [hn]
    exact hw.core.edge_lt a b ed hq
  · intro a b ed hq
    rw [hed] at hq
    rw [hlp]
    exact hw.core.edge_par a b ed hq
  · intro a b ed hq
    rw [hed] at hq
    rw [hgn]
    exact hw.core.edge_child a b ed hq
  · intro g hg a b ed hq
    rw [hfl] at hg
    rw [hed] at hq
    exact hw.core.fl_no_edge g hg a b ed hq
  · intro a b ed hq
    rw [hed] at hq
    rw [hgn, hgn]
    exact hw.core.edge_safe a b ed hq
  · intro w r hq
    rw [hwr] at hq
    rw [hwit, List.length_append]
    have := hw.wr_key_lt w r hq
    omega
  · intro w r hq
    rw [hwr] at hq
    rw [hn]
    exact hw.wr_val_lt w r hq
  · intro w r hq
    rw [hwr] at hq
    rw [ha]
    exact hw.wr_active w r hq
  · intro w w' r h1 h2
    rw [hwr] at h1 h2
    exact hw.wr_inj w w' r h1 h2
  · intro w r hq
    rw [hwr] at hq
    rw [hwit, hgn, getD_append_lt _ _ _ _ (hw.wr_key_lt w r hq)]
    exact hw.wr_metric w r hq

theorem stepMid_WF [Inhabited S] (p : Params S U C) (e : Engine S U) (o : StepOracle S U)
    (hw : WF p e) : WF p (stepMid p e o) := by
  have hfr := stepMid_frame p e o
  cases hwo : o.witnessFound with
  | some j =>
    refine WF_transport p e (stepMid p e o) [] hfr.1 hfr.2.1 hfr.2.2.1 hfr.2.2.2.2.1
      hfr.2.2.2.2.2.1 ?_ hfr.2.2.2.2.2.2.1 hw
    rw [(stepMid_witnesses p e o).1 j hwo, List.append_nil]
  | none =>
    refine WF_transport p e (stepMid p e o) [stepPropagated p e o] hfr.1 hfr.2.1 hfr.2.2.1
      hfr.2.2.2.2.1 hfr.2.2.2.2.2.1 ?_ hfr.2.2.2.2.2.2.1 hw
    exact (stepMid_witnesses p e o).2 hwo

theorem iterBody_WF [Inhabited S] (p : Params S U C) (e : Engine S U) (o : StepOracle S U)
    (hw : WF p e) (hok : OracleOK p e o)
    (hrefl : ∀ s, p.ss_metric s s = 0) (hδ : 0 ≤ p.delta_s) :
    WF p (iterBody p e o).1 := by
  have hfr := stepMid_frame p e o
  have hw3 : WF p (stepMid p e o) := stepMid_WF p e o hw
  have hlt3 : o.idxNearest < (stepMid p e o).nodes.length := by
    rw [hfr.1]
    exact hok.nearest_lt
  have hnf3 : o.idxNearest ∉ (stepMid p e o).nodes_freelist := by
    rw [hfr.2.1]
    exact hok.nearest_not_free
  have hcfgB : p.project_state_to_config (getNode e o.idxNearest).state =
      p.project_state_to_config (getNode (stepMid p e o) o.idxNearest).state := by
    unfold getNode
    rw [hfr.1]
  have hwlt : witnessIdxOf e o < (stepMid p e o).witnesses.length := by
    unfold witnessIdxOf
    cases hwo : o.witnessFound with
    | some i =>
      rw [(stepMid_witnesses p e o).1 i hwo]
      exact (hok.witness_within i hwo).1
    | none =>
      rw [(stepMid_witnesses p e o).2 hwo, List.length_append]
      simp
  have hwmet : p.ss_metric ((stepMid p e o).witnesses.getD (witnessIdxOf e o) default)
      (stepPropagated p e o) ≤ p.delta_s := by
    unfold witnessIdxOf
    cases hwo : o.witnessFound with
    | some i =>
      rw [(stepMid_witnesses p e o).1 i hwo]
      exact (hok.witness_within i hwo).2
    | none =>
      rw [(stepMid_witnesses p e o).2 hwo, getD_append_self]
      rw [hrefl (stepPropagated p e o)]
      exact hδ
  have hmain : WF p (admitStep p (stepMid p e o) o (witnessIdxOf e o) (stepPropagated p e o)
      (p.project_state_to_config (getNode e o.idxNearest).state)
      (p.project_state_to_config (stepPropagated p e o))
      ((getNode e o.idxNearest).cost + o.dt) (stepReached p e o)).1 :=
    admitStep_WF p (stepMid p e o) o (witnessIdxOf e o) (stepPropagated p e o)
      (p.project_state_to_config (getNode e o.idxNearest).state)
      (p.project_state_to_config (stepPropagated p e o))
      ((getNode e o.idxNearest).cost + o.dt) (stepReached p e o)
      hw3 hlt3 hnf3 hcfgB rfl hwlt hwmet
  unfold iterBody
  dsimp only
  have hgf := goalStep_frame p
    (admitStep p (stepMid p e o) o (witnessIdxOf e o) (stepPropagated p e o)
      (p.project_state_to_config (getNode e o.idxNearest).state)
      (p.project_state_to_config (stepPropagated p e o))
      ((getNode e o.idxNearest).cost + o.dt) (stepReached p e o)).1
    (admitStep p (stepMid p e o) o (witnessIdxOf e o) (stepPropagated p e o)
      (p.project_state_to_config (getNode e o.idxNearest).state)
      (p.project_state_to_config (stepPropagated p e o))
      ((getNode e o.idxNearest).cost + o.dt) (stepReached p e o)).2
    (stepReached p e o)
  refine WF_transport p _ _ [] hgf.2.2.1 hgf.2.2.2.1 hgf.2.2.2.2.1 hgf.2.2.2.2.2.2.1
    hgf.2.2.2.2.2.2.2.1 ?_ hgf.2.1 hmain
  rw [hgf.1, List.append_nil]

theorem wf_initEngine [Inhabited S] (p : Params S U C)
    (hrefl : ∀ s, p.ss_metric s s = 0) (hδ : 0 ≤ p.delta_s) :
    WF p (initEngine p) := by
  unfold initEngine
  refine ⟨⟨?_, ?_, ?_, ?_, ?_, ?_, ?_, ?_, ?_, ?_, ?_⟩, ?_, ?_, ?_, ?_, ?_⟩
  · intro g hg
    exact absurd hg (List.not_mem_nil g)
  · intro g hg
    exact absurd hg (List.not_mem_nil g)
  · exact List.nodup_nil
  · intro c q hq
    rw [lookupA_nil] at hq
    cases hq
  · intro c q hq
    rw [lookupA_nil] at hq
    cases hq
  · intro c q hq
    rw [lookupA_nil] at hq
    cases hq
  · intro a b ed hq
    rw [lookupE_nil] at hq
    cases hq
  · intro a b ed hq
    rw [lookupE_nil] at hq
    cases hq
  · intro a b ed hq
    rw [lookupE_nil] at hq
    cases hq
  · intro g hg
    exact absurd hg (List.not_mem_nil g)
  · intro a b ed hq
    rw [lookupE_nil] at hq
    cases hq
  · intro w r hq
    rw [lookupA_cons] at hq
    by_cases h0 : 0 = w
    · rw [← h0]
      simp
    · rw [if_neg h0, lookupA_nil] at hq
      cases hq
  · intro w r hq
    rw [lookupA_cons] at hq
    by_cases h0 : 0 = w
    · rw [if_pos h0] at hq
      rw [← Option.some.inj hq]
      simp
    · rw [if_neg h0, lookupA_nil] at hq
      cases hq
  · intro w r hq
    rw [lookupA_cons] at hq
    by_cases h0 : 0 = w
    · rw [if_pos h0] at hq
      rw [← Option.some.inj hq]
      simp
    · rw [if_neg h0, lookupA_nil] at hq
      cases hq
  · intro w w' r h1 h2
    rw [lookupA_cons] at h1 h2
    by_cases h0 : 0 = w
    · by_cases h0' : 0 = w'
      · rw [← h0, ← h0']
      · rw [if_neg h0', lookupA_nil] at h2
        cases h2
    · rw [if_neg h0, lookupA_nil] at h1
      cases h1
  · intro w r hq
    rw [lookupA_cons] at hq
    by_cases h0 : 0 = w
    · rw [if_pos h0] at hq
      rw [← h0, ← Option.some.inj hq]
      simp only [getNode]
      rw [show (([{ id := 0, state := p.states_init, children := ∅, cost := 0 }] :
        List (Node S)).getD 0 default).state = p.states_init from rfl]
      rw [show (([p.states_init] : List S).getD 0 default) = p.states_init from rfl]
      rw [hrefl]
      exact hδ
    · rw [if_neg h0, lookupA_nil] at hq
      cases hq

theorem wf_resetEngine [Inhabited S] (p : Params S U C) (e : Engine S U)
    (hrefl : ∀ s, p.ss_metric s s = 0) (hδ : 0 ≤ p.delta_s) :
    WF p (resetEngine p e) := by
  unfold resetEngine
  refine ⟨⟨?_, ?_, ?_, ?_, ?_, ?_, ?_, ?_, ?_, ?_, ?_⟩, ?_, ?_, ?_, ?_, ?_⟩
  · intro g hg
    exact absurd hg (List.not_mem_nil g)
  · intro g hg
    exact absurd hg (List.not_mem_nil g)
  · exact List.nodup_nil
  · intro c q hq
    rw [lookupA_nil] at hq
    cases hq
  · intro c q hq
    rw [lookupA_nil] at hq
    cases hq
  · intro c q hq
    rw [lookupA_nil] at hq
    cases hq
  · intro a b ed hq
    rw [lookupE_nil] at hq
    cases hq
  · intro a b ed hq
    rw [lookupE_nil] at hq
    cases hq
  · intro a b ed hq
    rw [lookupE_nil] at hq
    cases hq
  · intro g hg
    exact absurd hg (List.not_mem_nil g)
  · intro a b ed hq
    rw [lookupE_nil] at hq
    cases hq
  · intro w r hq
    rw [lookupA_cons] at hq
    by_cases h0 : 0 = w
    · rw [← h0]
      simp
    · rw [if_neg h0, lookupA_nil] at hq
      cases hq
  · intro w r hq
    rw [lookupA_cons] at hq
    by_cases h0 : 0 = w
    · rw [if_pos h0] at hq
      rw [← Option.some.inj hq]
      simp
    · rw [if_neg h0, lookupA_nil] at hq
      cases hq
  · intro w r hq
    rw [lookupA_cons] at hq
    by_cases h0 : 0 = w
    · rw [if_pos h0] at hq
      rw [← Option.some.inj hq]
      simp
    · rw [if_neg h0, lookupA_nil] at hq
      cases hq
  · intro w w' r h1 h2
    rw [lookupA_cons] at h1 h2
    by_cases h0 : 0 = w
    · by_cases h0' : 0 = w'
      · rw [← h0, ← h0']
      · rw [if_neg h0', lookupA_nil] at h2
        cases h2
    · rw [if_neg h0, lookupA_nil] at h1
      cases h1
  · intro w r hq
    rw [lookupA_cons] at hq
    by_cases h0 : 0 = w
    · rw [if_pos h0] at hq
      rw [← h0, ← Option.some.inj hq]
      simp only [getNode]
      rw [show (([{ id := 0, state := p.states_init, children := ∅, cost := 0 }] :
        List (Node S)).getD 0 default).state = p.states_init from rfl]
      rw [show (([p.states_init] : List S).getD 0 default) = p.states_init from rfl]
      rw [hrefl]
      exact hδ
    · rw [if_neg h0, lookupA_nil] at hq
      cases hq

/-- Every reachable engine state is well-formed (for a reflexive state-space
metric and a nonnegative `delta_s`). -/
theorem wf_reachable [Inhabited S] (p : Params S U C) (e : Engine S U)
    (hrefl : ∀ s, p.ss_metric s s = 0) (hδ : 0 ≤ p.delta_s)
    (hre : Reachable p e) : WF p e := by
  induction hre with
  | init => exact wf_initEngine p hrefl hδ
  | step hre hok ih => exact iterBody_WF p _ _ ih hok hrefl hδ
  | reset hre ih => exact wf_resetEngine p _ hrefl hδ

/-- C2: in every reachable engine state — assuming the state-space metric is
reflexive, `delta_s` is nonnegative and the witness NN query only returns
witnesses within `delta_s` of the propagated state (the `OracleOK` side of
`Reachable.step`) — every witness `w` that has a representative `r` satisfies
`ss_metric(witness_state, nodes[r].state) ≤ delta_s`; the property holds after
init and is preserved by every iteration body (including representative
replacement and new-witness creation) and by reset. -/
theorem witness_representative_within_delta_s [Inhabited S] (p : Params S U C)
    (e : Engine S U) (hrefl : ∀ s, p.ss_metric s s = 0) (hδ : 0 ≤ p.delta_s)
    (hre : Reachable p e) :
    ∀ w r, lookupA e.witness_representative w = some r →
      p.ss_metric (e.witnesses.getD w default) (getNode e r).state ≤ p.delta_s :=
  (wf_reachable p e hrefl hδ hre).wr_metric

theorem witness_representative_within_delta_s_witness :
    (∀ s : ℚ, pQ.ss_metric s s = 0) ∧ (0 ≤ pQ.delta_s) ∧
    lookupA (iterBody pQ (initEngine pQ) oC4).1.witness_representative 1 = some 1 ∧
    pQ.ss_metric ((iterBody pQ (initEngine pQ) oC4).1.witnesses.getD 1 default)
      (getNode (iterBody pQ (initEngine pQ) oC4).1 1).state ≤ pQ.delta_s := by
  have hrefl : ∀ s : ℚ, pQ.ss_metric s s = 0 := by
    intro s
    show |s - s| = 0
    simp
  have hδ : (0 : ℚ) ≤ pQ.delta_s := by decide
  have hok : OracleOK pQ (initEngine pQ) oC4 := ⟨by decide, by decide, fun i h => nomatch h⟩
  have hlook : lookupA (iterBody pQ (initEngine pQ) oC4).1.witness_representative 1 =
      some 1 := by decide
  exact ⟨hrefl, hδ, hlook,
    witness_representative_within_delta_s pQ _ hrefl hδ
      (Reachable.step Reachable.init hok) 1 1 hlook⟩

/-- C4: in every reachable engine state — under the same side conditions as
the other tree invariant — every edge `(parent, child)` stored in the
propagation tree has a collision-free configuration-space segment between the
projections of the parent state and the child state: every `insert_node` call
is guarded by a failed `collision_check`, pruning only removes edges, and the
two endpoint states never change while the edge exists. -/
theorem tree_edges_collision_free [Inhabited S] (p : Params S U C)
    (e : Engine S U) (hrefl : ∀ s, p.ss_metric s s = 0) (hδ : 0 ≤ p.delta_s)
    (hre : Reachable p e) :
    ∀ a b ed, lookupE e.edges (a, b) = some ed →
      p.collides (p.project_state_to_config (getNode e a).state)
        (p.project_state_to_config (getNode e b).state) = false :=
  (wf_reachable p e hrefl hδ hre).core.edge_safe

theorem tree_edges_collision_free_witness :
    (∀ s : ℚ, pQ.ss_metric s s = 0) ∧ (0 ≤ pQ.delta_s) ∧
    lookupE (iterBody pQ (initEngine pQ) oC4).1.edges (0, 1) =
      some { control := 0, kind := 0 } ∧
    pQ.collides
      (pQ.project_state_to_config (getNode (iterBody pQ (initEngine pQ) oC4).1 0).state)
      (pQ.project_state_to_config (getNode (iterBody pQ (initEngine pQ) oC4).1 1).state) =
      false := by
  have hrefl : ∀ s : ℚ, pQ.ss_metric s s = 0 := by
    intro s
    show |s - s| = 0
    simp
  have hδ : (0 : ℚ) ≤ pQ.delta_s := by decide
  have hok : OracleOK pQ (initEngine pQ) oC4 := ⟨by decide, by decide, fun i h => nomatch h⟩
  have hlook : lookupE (iterBody pQ (initEngine pQ) oC4).1.edges (0, 1) =
      some { control := 0, kind := 0 } := by decide
  exact ⟨hrefl, hδ, hlook,
    tree_edges_collision_free pQ _ hrefl hδ (Reachable.step Reachable.init hok) 0 1
      { control := 0, kind := 0 } hlook⟩
